import Mathlib

/-!
# Shallow embedding of the Frenzy-mode per-tick simulation engine

This file embeds the `FrenzyManager` class (unit spawning/lifecycle, movement
and targeting, combat resolution, territory capture, dead-unit cleanup, cap
enforcement, spatial-index rebuild) together with the data model it operates
on, and proves the specification claims about it.

Modelling conventions:
* TypeScript `number` is embedded as `ℚ` (exact real-valued semantics of the
  arithmetic the code performs); `Math.sqrt`/`Math.hypot` are modelled by an
  abstract function `sqrtq : ℚ → ℚ` supplied by the environment and applied
  to the exact sum of squares, since the code only ever compares or divides
  by such roots.
* The external `Game` collaborator (map geometry, water, neighbors, players,
  spawn-phase flag) is a record of functions `Env`; tile ownership, which the
  engine mutates through `conquer`, lives in the engine state.
* JavaScript object references: the spatial grid stores list indices of the
  units it indexed (the unit array is not restructured between a rebuild and
  the queries of the following tick, so an index is a faithful stand-in for
  an object reference); `Map` is an association list with `Map.set` insertion
  semantics (update in place, else append).
* `Math.random()` is a stream `rand : Nat → ℚ` consumed at a cursor
  `randIdx` carried in the state.
-/

/-- Player identifier; the neutral owner is just another identifier. -/
abbrev PlayerId := Nat

/-- Mobile combat unit (fields of the `FrenzyUnit` objects the manager creates). -/
structure FrenzyUnit where
  id : Nat
  playerId : PlayerId
  x : ℚ
  y : ℚ
  vx : ℚ
  vy : ℚ
  health : ℚ
  targetX : ℚ
  targetY : ℚ
deriving DecidableEq

/-- Per-player core (HQ) structure. -/
structure CoreBuilding where
  playerId : PlayerId
  x : ℚ
  y : ℚ
  spawnTimer : ℚ
  spawnInterval : ℚ
  unitCount : Int
deriving DecidableEq

/-- The configuration fields the manager reads. -/
structure FrenzyConfig where
  spawnInterval : ℚ
  maxUnitsPerPlayer : Nat
  startingUnits : Nat
  unitHealth : ℚ
  unitSpeed : ℚ
  unitDPS : ℚ
  combatRange : ℚ
  separationRadius : ℚ
  captureRadius : ℚ
  radialAlignmentWeight : ℚ
  borderAdvanceDistance : ℚ
  stopDistance : ℚ
deriving DecidableEq

/-- A partial configuration override (`Partial<FrenzyConfig>`). -/
structure FrenzyConfigPatch where
  spawnInterval : Option ℚ := none
  maxUnitsPerPlayer : Option Nat := none
  startingUnits : Option Nat := none
  unitHealth : Option ℚ := none
  unitSpeed : Option ℚ := none
  unitDPS : Option ℚ := none
  combatRange : Option ℚ := none
  separationRadius : Option ℚ := none
  captureRadius : Option ℚ := none
  radialAlignmentWeight : Option ℚ := none
  borderAdvanceDistance : Option ℚ := none
  stopDistance : Option ℚ := none
deriving DecidableEq

/-- Spread-merge of a partial override onto a configuration. -/
def mergeConfig (c : FrenzyConfig) (p : FrenzyConfigPatch) : FrenzyConfig where
  spawnInterval := p.spawnInterval.getD c.spawnInterval
  maxUnitsPerPlayer := p.maxUnitsPerPlayer.getD c.maxUnitsPerPlayer
  startingUnits := p.startingUnits.getD c.startingUnits
  unitHealth := p.unitHealth.getD c.unitHealth
  unitSpeed := p.unitSpeed.getD c.unitSpeed
  unitDPS := p.unitDPS.getD c.unitDPS
  combatRange := p.combatRange.getD c.combatRange
  separationRadius := p.separationRadius.getD c.separationRadius
  captureRadius := p.captureRadius.getD c.captureRadius
  radialAlignmentWeight := p.radialAlignmentWeight.getD c.radialAlignmentWeight
  borderAdvanceDistance := p.borderAdvanceDistance.getD c.borderAdvanceDistance
  stopDistance := p.stopDistance.getD c.stopDistance

/-- Modelled from the spec: the `SpatialHashGrid` source file is not under
`src/`, only its call sites are. Per spec section 4.1 it is a uniform grid
keyed by the cell a position falls in at insertion time; `getNearby` scans all
cells whose bounding box intersects the query circle and may over-return.
Entries store the index of the inserted unit in the manager's unit list
(standing in for the object reference the real grid stores). -/
structure SpatialHashGrid where
  cellSize : ℚ
  cells : List ((Int × Int) × Nat)
deriving DecidableEq

/-- Modelled from the spec: insert keyed by the containing cell. -/
def SpatialHashGrid.insert (g : SpatialHashGrid) (idx : Nat) (u : FrenzyUnit) :
    SpatialHashGrid :=
  { g with cells := g.cells ++ [((⌊u.x / g.cellSize⌋, ⌊u.y / g.cellSize⌋), idx)] }

/-- Modelled from the spec: drop all entries. -/
def SpatialHashGrid.clear (g : SpatialHashGrid) : SpatialHashGrid :=
  { g with cells := [] }

/-- Modelled from the spec: return (indices of) all entities whose cell lies in
the bounding box of the query circle; callers do exact filtering. -/
def SpatialHashGrid.getNearby (g : SpatialHashGrid) (x y r : ℚ) : List Nat :=
  let loX : Int := ⌊(x - r) / g.cellSize⌋
  let hiX : Int := ⌊(x + r) / g.cellSize⌋
  let loY : Int := ⌊(y - r) / g.cellSize⌋
  let hiY : Int := ⌊(y + r) / g.cellSize⌋
  (g.cells.filter fun e =>
    decide (loX ≤ e.1.1) && decide (e.1.1 ≤ hiX) &&
    decide (loY ≤ e.1.2) && decide (e.1.2 ≤ hiY)).map (·.2)

/-- The read-only surface of the external `Game` collaborator, plus the
randomness stream and the square-root function used by the arithmetic. -/
structure Env where
  width : ℚ
  height : ℚ
  isValidCoord : Int → Int → Bool
  ref : Int → Int → Nat
  tileX : Nat → ℚ
  tileY : Nat → ℚ
  isWater : Nat → Bool
  neighbors : Nat → List Nat
  allTiles : List Nat
  players : List PlayerId
  inSpawnPhase : Bool
  rand : Nat → ℚ
  sqrtq : ℚ → ℚ

/-- Full engine state: the manager's private fields plus the mutable tile
ownership it changes through `player.conquer`. -/
structure FrenzyState where
  units : List FrenzyUnit
  coreBuildings : List (PlayerId × CoreBuilding)
  grid : SpatialHashGrid
  nextUnitId : Nat
  config : FrenzyConfig
  randIdx : Nat
  owner : Nat → PlayerId

/-- State produced by the constructor: empty registries, a fresh grid with the
hard-coded 50px cell size, and the merged configuration. -/
def initialState (cfg : FrenzyConfig) (own : Nat → PlayerId) : FrenzyState :=
  { units := [], coreBuildings := [], grid := { cellSize := 50, cells := [] },
    nextUnitId := 1, config := cfg, randIdx := 0, owner := own }

/-- `Map.get` on the association list. -/
def mapGet (m : List (PlayerId × CoreBuilding)) (p : PlayerId) : Option CoreBuilding :=
  match m with
  | [] => none
  | (q, b) :: r => if q == p then some b else mapGet r p

/-- `Map.set`: replace in place if the key exists, else append. -/
def mapSet (m : List (PlayerId × CoreBuilding)) (p : PlayerId) (b : CoreBuilding) :
    List (PlayerId × CoreBuilding) :=
  match m with
  | [] => [(p, b)]
  | (q, c) :: r => if q == p then (p, b) :: r else (q, c) :: mapSet r p b

/-- `Map.has`. -/
def mapHas (m : List (PlayerId × CoreBuilding)) (p : PlayerId) : Bool :=
  (mapGet m p).isSome

/-- `player.tiles()`: the owned tiles in the map's enumeration order. -/
def tilesOf (env : Env) (own : Nat → PlayerId) (p : PlayerId) : List Nat :=
  env.allTiles.filter fun t => own t == p

/-- FrenzyManager.spawnUnit: bail out if the owner has no HQ, otherwise push a
new unit at the given position with random jitter and bump the HQ's count. -/
def spawnUnit (env : Env) (p : PlayerId) (x y : ℚ) (st : FrenzyState) : FrenzyState :=
  match mapGet st.coreBuildings p with
  | none => st
  | some b =>
    let offX : ℚ := (env.rand st.randIdx - 1/2) * 20
    let offY : ℚ := (env.rand (st.randIdx + 1) - 1/2) * 20
    let u : FrenzyUnit :=
      { id := st.nextUnitId, playerId := p, x := x + offX, y := y + offY,
        vx := 0, vy := 0, health := st.config.unitHealth, targetX := x, targetY := y }
    { st with
      units := st.units ++ [u],
      nextUnitId := st.nextUnitId + 1,
      randIdx := st.randIdx + 2,
      coreBuildings := mapSet st.coreBuildings p { b with unitCount := b.unitCount + 1 } }

/-- FrenzyManager.onPlayerSpawn: no-op if the player already has an HQ or owns
no tiles; otherwise create the HQ at the first owned tile and spawn the
configured number of starting units there. -/
def onPlayerSpawn (env : Env) (p : PlayerId) (st : FrenzyState) : FrenzyState :=
  if mapHas st.coreBuildings p then st
  else
    match tilesOf env st.owner p with
    | [] => st
    | t0 :: _ =>
      let sx := env.tileX t0
      let sy := env.tileY t0
      let hq : CoreBuilding :=
        { playerId := p, x := sx, y := sy,
          spawnTimer := st.config.spawnInterval,
          spawnInterval := st.config.spawnInterval, unitCount := 0 }
      let st1 : FrenzyState :=
        { st with coreBuildings := mapSet st.coreBuildings p hq }
      (List.range st.config.startingUnits).foldl (fun s _ => spawnUnit env p sx sy s) st1

/-- Division that records the division-by-zero hazard: `none` exactly when the
divisor is zero (the event whose absence claim C9 asserts). -/
def safeDiv (a b : ℚ) : Option ℚ :=
  if b = 0 then none else some (a / b)

/-- JavaScript `v || 1` applied to a vector length: a zero length is replaced
by 1 before being used as a divisor. -/
def orOne (q : ℚ) : ℚ :=
  if q = 0 then 1 else q

/-- Math.hypot (and Math.sqrt of a sum of squares) under the abstract root. -/
def hypotq (env : Env) (a b : ℚ) : ℚ :=
  env.sqrtq (a * a + b * b)

/-- Math.max lo (Math.min hi v), the map-bounds clamp. -/
def clampq (lo hi v : ℚ) : ℚ :=
  max lo (min hi v)

/-- Squared Euclidean distance between two units' positions. -/
def dSq (u v : FrenzyUnit) : ℚ :=
  (v.x - u.x) * (v.x - u.x) + (v.y - u.y) * (v.y - u.y)

/-- Update of the running best capture candidate: strictly smaller score wins,
matching `if (score < bestScore)` with `bestScore` starting at Infinity. -/
def updateBest (best : Option (Nat × ℚ)) (nb : Nat) (score : ℚ) : Option (Nat × ℚ) :=
  match best with
  | none => some (nb, score)
  | some (b, bs) => if score < bs then some (nb, score) else some (b, bs)

/-- Score of one enemy/neutral neighbor candidate: distance divided by the
radial-alignment boost (FrenzyManager.updateUnits, candidate loop body). -/
def candidateScore (env : Env) (cfg : FrenzyConfig) (ux uy uLen cx cy x0 y0 : ℚ)
    (nb : Nat) : Option ℚ := do
  let nx := env.tileX nb
  let ny := env.tileY nb
  let vx := nx - cx
  let vy := ny - cy
  let vLen := orOne (hypotq env vx vy)
  let alignment ← safeDiv (vx * ux + vy * uy) (vLen * uLen)
  let dist := hypotq env (nx - x0) (ny - y0)
  let boost := max (1/10 : ℚ) (1 + cfg.radialAlignmentWeight * alignment)
  safeDiv dist boost

/-- Fold over all border tiles and their neighbors selecting the best-scoring
non-owned, non-water candidate tile. -/
def bestCand (env : Env) (cfg : FrenzyConfig) (own : Nat → PlayerId) (p : PlayerId)
    (ux uy uLen cx cy x0 y0 : ℚ) (borderTiles : List Nat) : Option (Option (Nat × ℚ)) :=
  borderTiles.foldlM (fun best bt =>
    (env.neighbors bt).foldlM (fun best2 nb =>
      if own nb == p then pure best2
      else if env.isWater nb then pure best2
      else do
        let score ← candidateScore env cfg ux uy uLen cx cy x0 y0 nb
        pure (updateBest best2 nb score)) best) none

/-- Target position for one unit (FrenzyManager.updateUnits, lines computing
`targetPos`): radially-biased best frontier candidate, optionally advanced past
the border, with map-center fallbacks. -/
def targetPosFor (env : Env) (cfg : FrenzyConfig) (own : Nat → PlayerId)
    (tiles : List Nat) (unit : FrenzyUnit) : Option (ℚ × ℚ) :=
  let p := unit.playerId
  let borderTiles := tiles.filter fun t =>
    (env.neighbors t).any fun n => !(own n == p)
  if borderTiles.length = 0 then pure (env.width / 2, env.height / 2)
  else do
    let n : ℚ := tiles.length
    let sx := tiles.foldl (fun s t => s + env.tileX t) 0
    let sy := tiles.foldl (fun s t => s + env.tileY t) 0
    let cx ← safeDiv sx n
    let cy ← safeDiv sy n
    let ux := unit.x - cx
    let uy := unit.y - cy
    let uLen := orOne (hypotq env ux uy)
    let best ← bestCand env cfg own p ux uy uLen cx cy unit.x unit.y borderTiles
    match best with
    | some (bt, _) =>
      let bx := env.tileX bt
      let by2 := env.tileY bt
      if 0 < cfg.borderAdvanceDistance then do
        let dirX := bx - cx
        let dirY := by2 - cy
        let dirLen := orOne (hypotq env dirX dirY)
        let qx ← safeDiv dirX dirLen
        let qy ← safeDiv dirY dirLen
        pure (clampq 0 env.width (bx + qx * cfg.borderAdvanceDistance),
              clampq 0 env.height (by2 + qy * cfg.borderAdvanceDistance))
      else
        pure (bx, by2)
    | none => pure (env.width / 2, env.height / 2)

/-- FrenzyManager.applySeparation: blend a push away from nearby friendlies
into the velocity; every division is guarded (`dist > 0`, `count > 0`). -/
def applySeparationV (env : Env) (cfg : FrenzyConfig) (grid : SpatialHashGrid)
    (us : List FrenzyUnit) (unit : FrenzyUnit) (vx1 vy1 : ℚ) : Option (ℚ × ℚ) := do
  let nearby := grid.getNearby unit.x unit.y cfg.separationRadius
  let acc ← nearby.foldlM (fun (acc : ℚ × ℚ × Nat) idx =>
    match us.get? idx with
    | none => pure acc
    | some other =>
      if other.id ≠ unit.id ∧ other.playerId = unit.playerId then do
        let dx := unit.x - other.x
        let dy := unit.y - other.y
        let dist := env.sqrtq (dx * dx + dy * dy)
        if 0 < dist ∧ dist < cfg.separationRadius then do
          let ax ← safeDiv dx dist
          let ay ← safeDiv dy dist
          pure (acc.1 + ax, acc.2.1 + ay, acc.2.2 + 1)
        else pure acc
      else pure acc) ((0 : ℚ), (0 : ℚ), (0 : Nat))
  if 0 < acc.2.2 then do
    let mx ← safeDiv acc.1 (acc.2.2 : ℚ)
    let my ← safeDiv acc.2.1 (acc.2.2 : ℚ)
    pure (vx1 + mx * cfg.unitSpeed * (3/5), vy1 + my * cfg.unitSpeed * (3/5))
  else pure (vx1, vy1)

/-- One unit's movement step (body of the loop in FrenzyManager.updateUnits):
skip when the owner has no tiles; otherwise compute the target, and either
integrate the separated velocity clamped to map bounds, or stop. -/
def moveUnitStep (env : Env) (dt : ℚ) (cfg : FrenzyConfig) (own : Nat → PlayerId)
    (grid : SpatialHashGrid) (us : List FrenzyUnit) (i : Nat) :
    Option (List FrenzyUnit) :=
  match us.get? i with
  | none => some us
  | some unit =>
    let tiles := tilesOf env own unit.playerId
    if tiles.length = 0 then some us
    else do
      let tp ← targetPosFor env cfg own tiles unit
      let dx := tp.1 - unit.x
      let dy := tp.2 - unit.y
      let dist := env.sqrtq (dx * dx + dy * dy)
      let stopD := max 0 cfg.stopDistance
      if stopD < dist then do
        let nx0 ← safeDiv dx dist
        let ny0 ← safeDiv dy dist
        let v ← applySeparationV env cfg grid us unit (nx0 * cfg.unitSpeed) (ny0 * cfg.unitSpeed)
        pure (us.set i { unit with
          vx := v.1, vy := v.2,
          x := clampq 0 env.width (unit.x + v.1 * dt),
          y := clampq 0 env.height (unit.y + v.2 * dt) })
      else
        pure (us.set i { unit with vx := 0, vy := 0 })

/-- FrenzyManager.updateUnits as a checked computation: `none` would signal a
division by zero somewhere in movement or separation. -/
def updateUnitsChecked (env : Env) (dt : ℚ) (st : FrenzyState) :
    Option (List FrenzyUnit) :=
  (List.range st.units.length).foldlM
    (moveUnitStep env dt st.config st.owner st.grid) st.units

/-- FrenzyManager.updateUnits; the fallback branch is dead code (the theorem
for claim C9 proves the checked computation never fails). -/
def updateUnits (env : Env) (dt : ℚ) (st : FrenzyState) : FrenzyState :=
  match updateUnitsChecked env dt st with
  | some us => { st with units := us }
  | none => st

/-- Resolution of a spatial-grid entry (a stored unit-list index) to the
current unit it references. -/
def resolveIdx (us : List FrenzyUnit) (i : Nat) : Option (Nat × FrenzyUnit) :=
  (us.get? i).map fun u => (i, u)

/-- The different-owner entities among the spatial-index query results for one
unit (FrenzyManager.updateCombat: `getNearby(...).filter(...)`). -/
def enemiesOf (cfg : FrenzyConfig) (grid : SpatialHashGrid)
    (us : List FrenzyUnit) (u : FrenzyUnit) : List (Nat × FrenzyUnit) :=
  ((grid.getNearby u.x u.y cfg.combatRange).filterMap (resolveIdx us)).filter
    fun e => !(e.2.playerId == u.playerId)

/-- The `enemies.reduce(...)` nearest-enemy selection: fold from the first
element, replacing the champion only on strictly smaller hypot distance. -/
def nearestSel (env : Env) (u : FrenzyUnit) :
    List (Nat × FrenzyUnit) → Option (Nat × FrenzyUnit)
  | [] => none
  | e :: r => some ((e :: r).foldl (fun c x =>
      if env.sqrtq (dSq u x.2) < env.sqrtq (dSq u c.2) then x else c) e)

/-- One attacker's combat step: if any different-owner entity was returned by
the index, the selected nearest one loses `unitDPS * deltaTime` health. -/
def combatStep (env : Env) (cfg : FrenzyConfig) (dt : ℚ) (grid : SpatialHashGrid)
    (us : List FrenzyUnit) (u : FrenzyUnit) : List FrenzyUnit :=
  match nearestSel env u (enemiesOf cfg grid us u) with
  | none => us
  | some (j, v) => us.set j { v with health := v.health - cfg.unitDPS * dt }

/-- FrenzyManager.updateCombat: every unit in list order attacks; damage is
applied to the live (already mutated) unit objects. -/
def updateCombat (env : Env) (dt : ℚ) (st : FrenzyState) : FrenzyState :=
  { st with units := (List.range st.units.length).foldl (fun us i =>
      match us.get? i with
      | none => us
      | some u => combatStep env st.config dt st.grid us u) st.units }

/-- The ownership update performed by `player.conquer(tile)`. -/
def conquerTile (own : Nat → PlayerId) (t : Nat) (p : PlayerId) : Nat → PlayerId :=
  fun s => if s == t then p else own s

/-- One capture candidate (inner loop body of FrenzyManager.captureTerritory):
skip out-of-bounds, water, and already-owned tiles; conquer only when a
neighbor is already owned by the unit's owner. -/
def processCandidate (env : Env) (p : PlayerId) (own : Nat → PlayerId)
    (tx ty : Int) : Nat → PlayerId :=
  if env.isValidCoord tx ty then
    let t := env.ref tx ty
    if env.isWater t then own
    else if own t == p then own
    else if (env.neighbors t).any (fun n => own n == p) then conquerTile own t p
    else own
  else own

/-- The offsets `-r, ..., r` scanned by the capture loops. -/
def intRangeSym (r : Int) : List Int :=
  (List.range (2 * r + 1).toNat).map fun k => -r + (k : Int)

/-- Capture scan of one unit: all offsets in the square of radius `r` around
the unit's floored position, processed in `dx`-outer `dy`-inner order. -/
def captureUnit (env : Env) (r : Int) (own : Nat → PlayerId) (u : FrenzyUnit) :
    Nat → PlayerId :=
  (intRangeSym r).foldl (fun o dx =>
    (intRangeSym r).foldl (fun o2 dy =>
      processCandidate env u.playerId o2 (⌊u.x⌋ + dx) (⌊u.y⌋ + dy)) o) own

/-- FrenzyManager.captureTerritory: every unit scans a square of radius
`max 1 ⌊captureRadius⌋` and converts eligible tiles. -/
def captureTerritory (env : Env) (st : FrenzyState) : FrenzyState :=
  let r := max 1 ⌊st.config.captureRadius⌋
  { st with owner := st.units.foldl (fun o u => captureUnit env r o u) st.owner }

/-- The unclamped `building.unitCount--` of FrenzyManager.removeDeadUnits. -/
def decUnitCount (m : List (PlayerId × CoreBuilding)) (p : PlayerId) :
    List (PlayerId × CoreBuilding) :=
  match mapGet m p with
  | none => m
  | some b => mapSet m p { b with unitCount := b.unitCount - 1 }

/-- FrenzyManager.removeDeadUnits: decrement each dead unit's HQ count, then
keep only units with positive health. -/
def removeDeadUnits (st : FrenzyState) : FrenzyState :=
  let dead := st.units.filter fun u => decide (u.health ≤ 0)
  let bs := dead.foldl (fun m u => decUnitCount m u.playerId) st.coreBuildings
  { st with coreBuildings := bs,
            units := st.units.filter fun u => decide (0 < u.health) }

/-- The clamped decrement `unitCount = max(unitCount - 1, 0)` of
FrenzyManager.enforceUnitCaps. -/
def decClamped (m : List (PlayerId × CoreBuilding)) (p : PlayerId) :
    List (PlayerId × CoreBuilding) :=
  match mapGet m p with
  | none => m
  | some b => mapSet m p { b with unitCount := max (b.unitCount - 1) 0 }

/-- Body of FrenzyManager.enforceUnitCaps: walk the unit list once, keep each
unit while its owner's running count stays within the cap, decrement the HQ
count for each dropped unit. -/
def enforceAux (cap : Nat) (counts : PlayerId → Nat) :
    List FrenzyUnit → List (PlayerId × CoreBuilding) →
    List FrenzyUnit × List (PlayerId × CoreBuilding)
  | [], bs => ([], bs)
  | u :: rest, bs =>
    let c := counts u.playerId + 1
    if c ≤ cap then
      let res := enforceAux cap (fun q => if q == u.playerId then c else counts q) rest bs
      (u :: res.1, res.2)
    else
      enforceAux cap counts rest (decClamped bs u.playerId)

/-- FrenzyManager.enforceUnitCaps. -/
def enforceUnitCaps (st : FrenzyState) : FrenzyState :=
  let res := enforceAux st.config.maxUnitsPerPlayer (fun _ => 0) st.units st.coreBuildings
  { st with units := res.1, coreBuildings := res.2 }

/-- FrenzyManager.rebuildSpatialGrid: clear, then insert every surviving unit
(the grid entry records the unit's index in the rebuilt list). -/
def rebuildSpatialGrid (st : FrenzyState) : FrenzyState :=
  { st with grid := st.units.enum.foldl (fun g iu => g.insert iu.1 iu.2) st.grid.clear }

/-- The per-HQ re-sync performed by updateConfig: adopt the new interval and
clamp the running timer to it. -/
def syncBuildings (cfg : FrenzyConfig) (bs : List (PlayerId × CoreBuilding)) :
    List (PlayerId × CoreBuilding) :=
  bs.map fun qb =>
    (qb.1, { qb.2 with spawnInterval := cfg.spawnInterval,
                       spawnTimer := min qb.2.spawnTimer cfg.spawnInterval })

/-- FrenzyManager.updateConfig: merge the override, re-sync every HQ's spawn
interval and clamp its timer to the (new) interval, and enforce unit caps
exactly when the override carries `maxUnitsPerPlayer`. -/
def updateConfig (patch : FrenzyConfigPatch) (st : FrenzyState) : FrenzyState :=
  let cfg := mergeConfig st.config patch
  let st1 : FrenzyState :=
    { st with config := cfg, coreBuildings := syncBuildings cfg st.coreBuildings }
  if patch.maxUnitsPerPlayer.isSome then enforceUnitCaps st1 else st1

/-- HQ creation for newly territoried players (the loop at the top of
FrenzyManager.tick). -/
def hqSpawnPhase (env : Env) (st : FrenzyState) : FrenzyState :=
  env.players.foldl (fun s p =>
    if 0 < (tilesOf env s.owner p).length ∧ mapHas s.coreBuildings p = false
    then onPlayerSpawn env p s else s) st

/-- Per-HQ spawn-timer step (loop body of FrenzyManager.updateSpawnTimers):
decrement the timer; when it is due and the recorded count is under the cap,
spawn one unit at the HQ and reset the timer to the HQ's interval. -/
def spawnTimerStep (env : Env) (dt : ℚ) (st : FrenzyState) (pid : PlayerId) :
    FrenzyState :=
  match mapGet st.coreBuildings pid with
  | none => st
  | some b =>
    let b1 : CoreBuilding := { b with spawnTimer := b.spawnTimer - dt }
    let st1 : FrenzyState := { st with coreBuildings := mapSet st.coreBuildings pid b1 }
    if b1.spawnTimer ≤ 0 ∧ b1.unitCount < (st.config.maxUnitsPerPlayer : Int) then
      let st2 := spawnUnit env pid b.x b.y st1
      match mapGet st2.coreBuildings pid with
      | none => st2
      | some b2 =>
        let bs2 := mapSet st2.coreBuildings pid { b2 with spawnTimer := b2.spawnInterval }
        { st2 with coreBuildings := bs2 }
    else st1

/-- FrenzyManager.updateSpawnTimers: run the step for every HQ in map order. -/
def updateSpawnTimers (env : Env) (dt : ℚ) (st : FrenzyState) : FrenzyState :=
  (st.coreBuildings.map Prod.fst).foldl (spawnTimerStep env dt) st

/-- FrenzyManager.tick: do nothing during the global spawn phase, otherwise
run the fixed pipeline. -/
def tick (env : Env) (dt : ℚ) (st : FrenzyState) : FrenzyState :=
  if env.inSpawnPhase then st
  else
    rebuildSpatialGrid
      (removeDeadUnits
        (captureTerritory env
          (updateCombat env dt
            (updateUnits env dt
              (updateSpawnTimers env dt
                (hqSpawnPhase env st))))))

/-- FrenzyManager.getUnits. -/
def getUnits (st : FrenzyState) : List FrenzyUnit :=
  st.units

/-- FrenzyManager.getUnitCount. -/
def getUnitCount (st : FrenzyState) (p : PlayerId) : Nat :=
  (st.units.filter fun u => u.playerId == p).length

/-! ## Association-list (JS `Map`) lemmas -/

theorem mapGet_mapSet (m : List (PlayerId × CoreBuilding)) (p : PlayerId)
    (b : CoreBuilding) (q : PlayerId) :
    mapGet (mapSet m p b) q = if p = q then some b else mapGet m q := by
  induction m with
  | nil => simp [mapGet, mapSet]
  | cons hd tl ih =>
    obtain ⟨k, c⟩ := hd
    by_cases hk : k = p
    · subst hk
      by_cases hq : k = q
      · subst hq; simp [mapGet, mapSet]
      · simp [mapGet, mapSet, hq]
    · by_cases hq : k = q
      · subst hq
        have hpk : ¬ p = k := fun h => hk h.symm
        simp [mapGet, mapSet, hk, hpk]
      · simp [mapGet, mapSet, hk, hq, ih]

theorem mapGet_mapSet_same (m : List (PlayerId × CoreBuilding)) (p : PlayerId)
    (b : CoreBuilding) : mapGet (mapSet m p b) p = some b := by
  simp [mapGet_mapSet]

theorem mapSet_mapSet (m : List (PlayerId × CoreBuilding)) (p : PlayerId)
    (a b : CoreBuilding) : mapSet (mapSet m p a) p b = mapSet m p b := by
  induction m with
  | nil => simp [mapSet]
  | cons hd tl ih =>
    obtain ⟨k, c⟩ := hd
    by_cases hk : k = p
    · subst hk; simp [mapSet]
    · simp [mapSet, hk, ih]

/-! ## Claim C8: a tick during the global spawn phase is a complete no-op -/

/-- C8: if the game's global spawn phase is still active, `tick` returns the
state unchanged — unit list, core structures (timers and counts included),
spatial index, next-unit-id counter, configuration and ownership are all
exactly as before, for every delta time. -/
theorem C8_tick_noop_in_spawn_phase (env : Env) (dt : ℚ) (st : FrenzyState)
    (h : env.inSpawnPhase = true) : tick env dt st = st := by
  simp [tick, h]

/-- Concrete witness environment that is still in the spawn phase. -/
def envSpawning : Env :=
  { width := 10, height := 10, isValidCoord := fun _ _ => false,
    ref := fun _ _ => 0, tileX := fun _ => 0, tileY := fun _ => 0,
    isWater := fun _ => false, neighbors := fun _ => [], allTiles := [],
    players := [], inSpawnPhase := true, rand := fun _ => 1/2,
    sqrtq := fun q => q }

/-- Concrete configuration used by several witnesses. -/
def cfgA : FrenzyConfig :=
  { spawnInterval := 4, maxUnitsPerPlayer := 100, startingUnits := 5,
    unitHealth := 100, unitSpeed := 1, unitDPS := 15, combatRange := 25,
    separationRadius := 5, captureRadius := 1, radialAlignmentWeight := 3/4,
    borderAdvanceDistance := 1/2, stopDistance := 1 }

theorem C8_tick_noop_in_spawn_phase_witness :
    envSpawning.inSpawnPhase = true ∧
      tick envSpawning 1 (initialState cfgA fun _ => 0) = initialState cfgA fun _ => 0 :=
  ⟨rfl, C8_tick_noop_in_spawn_phase envSpawning 1 (initialState cfgA fun _ => 0) rfl⟩

/-! ## Claim C7: the per-player spawn hook is idempotent -/

theorem spawnUnit_has_preserved (env : Env) (p : PlayerId) (x y : ℚ)
    (st : FrenzyState) (q : PlayerId) (h : mapHas st.coreBuildings q = true) :
    mapHas (spawnUnit env p x y st).coreBuildings q = true := by
  unfold spawnUnit
  cases hg : mapGet st.coreBuildings p with
  | none => simpa using h
  | some b =>
    simp only [mapHas, mapGet_mapSet]
    by_cases hpq : p = q <;> simp [hpq, mapHas] at h ⊢
    exact h

theorem spawnFold_has_preserved (env : Env) (p : PlayerId) (x y : ℚ)
    (l : List Nat) (st : FrenzyState) (q : PlayerId)
    (h : mapHas st.coreBuildings q = true) :
    mapHas ((l.foldl (fun s _ => spawnUnit env p x y s) st).coreBuildings) q = true := by
  induction l generalizing st with
  | nil => simpa using h
  | cons hd tl ih => exact ih _ (spawnUnit_has_preserved env p x y st q h)

theorem onPlayerSpawn_creates_or_skips (env : Env) (p : PlayerId) (st : FrenzyState) :
    onPlayerSpawn env p st = st ∨
      mapHas (onPlayerSpawn env p st).coreBuildings p = true := by
  unfold onPlayerSpawn
  by_cases h : mapHas st.coreBuildings p = true
  · left; simp [h]
  · have hb : mapHas st.coreBuildings p = false := by
      cases hx : mapHas st.coreBuildings p
      · rfl
      · exact absurd hx h
    cases ht : tilesOf env st.owner p with
    | nil => left; simp [hb, ht]
    | cons t0 rest =>
      right
      simp only [hb, Bool.false_eq_true, if_false, ht]
      apply spawnFold_has_preserved
      simp [mapHas, mapGet_mapSet_same]

theorem onPlayerSpawn_noop_of_has (env : Env) (p : PlayerId) (st : FrenzyState)
    (h : mapHas st.coreBuildings p = true) : onPlayerSpawn env p st = st := by
  unfold onPlayerSpawn
  simp [h]

/-- C7: calling the per-player spawn hook twice equals calling it once, and
when the player already has a core structure the call is a no-op that returns
the state (structure map, unit list, timers) unchanged. -/
theorem C7_onPlayerSpawn_idempotent (env : Env) (p : PlayerId) (st : FrenzyState) :
    onPlayerSpawn env p (onPlayerSpawn env p st) = onPlayerSpawn env p st ∧
      (mapHas st.coreBuildings p = true → onPlayerSpawn env p st = st) := by
  refine ⟨?_, onPlayerSpawn_noop_of_has env p st⟩
  rcases onPlayerSpawn_creates_or_skips env p st with h | h
  · rw [h]; exact h
  · exact onPlayerSpawn_noop_of_has env p _ h

/-- Concrete environment in which player 1 owns tile 0. -/
def envOneTile : Env :=
  { width := 10, height := 10, isValidCoord := fun _ _ => false,
    ref := fun _ _ => 0, tileX := fun _ => 2, tileY := fun _ => 2,
    isWater := fun _ => false, neighbors := fun _ => [], allTiles := [0],
    players := [1], inSpawnPhase := false, rand := fun _ => 1/2,
    sqrtq := fun q => q }

/-- Ownership map for the witnesses: tile 0 belongs to player 1. -/
def ownOneTile : Nat → PlayerId := fun t => if t = 0 then 1 else 0

theorem C7_onPlayerSpawn_idempotent_witness :
    (onPlayerSpawn envOneTile 1 (onPlayerSpawn envOneTile 1 (initialState cfgA ownOneTile)) =
      onPlayerSpawn envOneTile 1 (initialState cfgA ownOneTile)) ∧
    (mapHas (onPlayerSpawn envOneTile 1 (initialState cfgA ownOneTile)).coreBuildings 1 = true →
      onPlayerSpawn envOneTile 1 (onPlayerSpawn envOneTile 1 (initialState cfgA ownOneTile)) =
        onPlayerSpawn envOneTile 1 (initialState cfgA ownOneTile)) :=
  ⟨(C7_onPlayerSpawn_idempotent envOneTile 1 (initialState cfgA ownOneTile)).1,
   fun h => (C7_onPlayerSpawn_idempotent envOneTile 1
      (onPlayerSpawn envOneTile 1 (initialState cfgA ownOneTile))).2 h⟩

/-! ## Claim C1: territory capture converts a tile only under the four guards -/

/-- C1: the capture stage is exactly the per-unit fold of `processCandidate`
over the scanned square, and one candidate step changes a tile's owner only
if, at the moment of conversion, the candidate coordinates are within map
bounds, the tile is not water, it is not already owned by the unit's owner,
and at least one of its neighbor tiles is already owned by that player — and
then the tile becomes owned by that player. No tile failing any guard is ever
conquered by this stage. -/
theorem C1_capture_contiguity :
    (∀ env st, (captureTerritory env st).owner =
        st.units.foldl
          (fun o u => captureUnit env (max 1 ⌊st.config.captureRadius⌋) o u) st.owner ∧
      (captureTerritory env st).units = st.units ∧
      (captureTerritory env st).coreBuildings = st.coreBuildings) ∧
    (∀ (env : Env) (p : PlayerId) (own : Nat → PlayerId) (tx ty : Int) (s : Nat),
      processCandidate env p own tx ty s ≠ own s →
      env.isValidCoord tx ty = true ∧ s = env.ref tx ty ∧
      env.isWater s = false ∧ own s ≠ p ∧
      ((env.neighbors s).any fun n => own n == p) = true ∧
      processCandidate env p own tx ty s = p) := by
  refine ⟨fun env st => ⟨rfl, rfl, rfl⟩, ?_⟩
  intro env p own tx ty s h
  by_cases hv : env.isValidCoord tx ty = true
  case neg => exact absurd (by simp [processCandidate, hv]) h
  by_cases hw : env.isWater (env.ref tx ty) = true
  case pos => exact absurd (by simp [processCandidate, hv, hw]) h
  by_cases ho : (own (env.ref tx ty) == p) = true
  case pos => exact absurd (by simp [processCandidate, hv, hw, ho]) h
  by_cases hn : ((env.neighbors (env.ref tx ty)).any fun n => own n == p) = true
  case neg => exact absurd (by simp [processCandidate, hv, hw, ho, hn]) h
  have hs : s = env.ref tx ty := by
    by_contra hne
    exact absurd (by simp [processCandidate, hv, hw, ho, hn, conquerTile, hne]) h
  subst hs
  refine ⟨hv, rfl, by simpa using hw, ?_, hn, ?_⟩
  · intro hop
    exact ho (by simp [hop])
  · simp [processCandidate, hv, hw, ho, hn, conquerTile]

/-- Concrete environment for the C1 witness: coordinates (0,0) are valid and
refer to tile 5, which is land and has tile 6 as a neighbor. -/
def envCapture : Env :=
  { width := 10, height := 10,
    isValidCoord := fun x y => decide (x = 0) && decide (y = 0),
    ref := fun _ _ => 5, tileX := fun _ => 0, tileY := fun _ => 0,
    isWater := fun _ => false, neighbors := fun t => if t = 5 then [6] else [],
    allTiles := [5, 6], players := [1], inSpawnPhase := false,
    rand := fun _ => 1/2, sqrtq := fun q => q }

/-- Ownership for the C1 witness: only tile 6 belongs to player 1. -/
def ownCapture : Nat → PlayerId := fun t => if t = 6 then 1 else 0

theorem C1_capture_contiguity_witness :
    processCandidate envCapture 1 ownCapture 0 0 5 ≠ ownCapture 5 ∧
      (envCapture.isValidCoord 0 0 = true ∧ 5 = envCapture.ref 0 0 ∧
        envCapture.isWater 5 = false ∧ ownCapture 5 ≠ 1 ∧
        ((envCapture.neighbors 5).any fun n => ownCapture n == 1) = true ∧
        processCandidate envCapture 1 ownCapture 0 0 5 = 1) :=
  ⟨by decide, C1_capture_contiguity.2 envCapture 1 ownCapture 0 0 5 (by decide)⟩

/-! ## Claim C5: combat damages exactly the nearest different-owner entity -/

/-- The generic strict-improvement champion fold underlying the source's
`enemies.reduce(...)` nearest-enemy selection. -/
def selFold {α : Type} (g : α → ℚ) (c : α) (l : List α) : α :=
  l.foldl (fun c x => if g x < g c then x else c) c

theorem selFold_spec {α : Type} (g : α → ℚ) (c : α) (l : List α) :
    (selFold g c l = c ∧ ∀ x ∈ l, g c ≤ g x) ∨
    (∃ i x, l.get? i = some x ∧ selFold g c l = x ∧ g x < g c ∧
      (∀ k y, k < i → l.get? k = some y → g x < g y) ∧ (∀ y ∈ l, g x ≤ g y)) := by
  induction l generalizing c with
  | nil => exact Or.inl ⟨rfl, by simp⟩
  | cons a t ih =>
    by_cases ha : g a < g c
    · have hstep : selFold g c (a :: t) = selFold g a t := by
        simp only [selFold, List.foldl_cons, if_pos ha]
      rcases ih a with ⟨he, hmin⟩ | ⟨i, x, hget, hres, hlt, hearly, hmin⟩
      · refine Or.inr ⟨0, a, rfl, by rw [hstep, he], ha, ?_, ?_⟩
        · intro k y hk _
          exact absurd hk (Nat.not_lt_zero k)
        · intro y hy
          rcases List.mem_cons.mp hy with h | h
          · subst h; exact le_refl _
          · exact hmin y h
      · refine Or.inr ⟨i + 1, x, by simpa using hget, by rw [hstep, hres],
          lt_trans hlt ha, ?_, ?_⟩
        · intro k y hk hky
          cases k with
          | zero =>
            have hya : a = y := by simpa using hky
            rw [← hya]
            exact hlt
          | succ k2 =>
            exact hearly k2 y (by omega) (by simpa using hky)
        · intro y hy
          rcases List.mem_cons.mp hy with h | h
          · subst h; exact le_of_lt hlt
          · exact hmin y h
    · have hstep : selFold g c (a :: t) = selFold g c t := by
        simp only [selFold, List.foldl_cons, if_neg ha]
      have hca : g c ≤ g a := not_lt.mp ha
      rcases ih c with ⟨he, hmin⟩ | ⟨i, x, hget, hres, hlt, hearly, hmin⟩
      · refine Or.inl ⟨by rw [hstep, he], ?_⟩
        intro y hy
        rcases List.mem_cons.mp hy with h | h
        · subst h; exact hca
        · exact hmin y h
      · refine Or.inr ⟨i + 1, x, by simpa using hget, by rw [hstep, hres], hlt, ?_, ?_⟩
        · intro k y hk hky
          cases k with
          | zero =>
            have hya : a = y := by simpa using hky
            rw [← hya]
            exact lt_of_lt_of_le hlt hca
          | succ k2 =>
            exact hearly k2 y (by omega) (by simpa using hky)
        · intro y hy
          rcases List.mem_cons.mp hy with h | h
          · subst h; exact le_trans (le_of_lt hlt) hca
          · exact hmin y h

theorem selFold_mem {α : Type} (g : α → ℚ) (c : α) (l : List α) :
    selFold g c l ∈ c :: l := by
  induction l generalizing c with
  | nil => simp [selFold]
  | cons a t ih =>
    by_cases ha : g a < g c
    · have hstep : selFold g c (a :: t) = selFold g a t := by
        simp only [selFold, List.foldl_cons, if_pos ha]
      rw [hstep]
      rcases List.mem_cons.mp (ih a) with h | h
      · rw [h]; simp
      · simp [h]
    · have hstep : selFold g c (a :: t) = selFold g c t := by
        simp only [selFold, List.foldl_cons, if_neg ha]
      rw [hstep]
      rcases List.mem_cons.mp (ih c) with h | h
      · rw [h]; simp
      · simp [h]

theorem nearestSel_eq (env : Env) (u : FrenzyUnit) (e : Nat × FrenzyUnit)
    (r : List (Nat × FrenzyUnit)) :
    nearestSel env u (e :: r) =
      some (selFold (fun x => env.sqrtq (dSq u x.2)) e r) := by
  simp [nearestSel, selFold, List.foldl_cons, lt_irrefl]

theorem mem_enemiesOf {cfg : FrenzyConfig} {grid : SpatialHashGrid}
    {us : List FrenzyUnit} {u : FrenzyUnit} {j : Nat} {v : FrenzyUnit}
    (h : (j, v) ∈ enemiesOf cfg grid us u) :
    us.get? j = some v ∧ (v.playerId == u.playerId) = false := by
  unfold enemiesOf at h
  obtain ⟨hm, hpred⟩ := List.mem_filter.mp h
  obtain ⟨i, hi, hres⟩ := List.mem_filterMap.mp hm
  unfold resolveIdx at hres
  cases hg : us.get? i with
  | none => rw [hg] at hres; simp at hres
  | some w =>
    rw [hg] at hres
    simp only [Option.map_some', Option.some.injEq, Prod.mk.injEq] at hres
    obtain ⟨hij, hwv⟩ := hres
    subst hij; subst hwv
    refine ⟨hg, ?_⟩
    simpa using hpred

theorem dSq_nonneg (u v : FrenzyUnit) : 0 ≤ dSq u v := by
  unfold dSq
  have h1 := mul_self_nonneg (v.x - u.x)
  have h2 := mul_self_nonneg (v.y - u.y)
  linarith

/-- C5: in combat resolution, a unit whose spatial-index query yields no
different-owner entity changes nothing; otherwise exactly the selected
nearest enemy loses `damagePerSecond * deltaTime` health (never a negative
amount for non-negative DPS and delta time), and under the real meaning of
the square root (strictly monotone on non-negatives) the selected enemy is
nearest by true Euclidean distance with ties broken by iteration order. -/
theorem C5_combat_nearest (env : Env) (cfg : FrenzyConfig) (dt : ℚ)
    (grid : SpatialHashGrid) (us : List FrenzyUnit) (u : FrenzyUnit) :
    (∀ st : FrenzyState, (updateCombat env dt st).units =
      (List.range st.units.length).foldl
        (fun us2 i =>
          match us2.get? i with
          | none => us2
          | some w => combatStep env st.config dt st.grid us2 w) st.units) ∧
    (enemiesOf cfg grid us u = [] → combatStep env cfg dt grid us u = us) ∧
    (enemiesOf cfg grid us u ≠ [] →
      (nearestSel env u (enemiesOf cfg grid us u)).isSome = true) ∧
    (∀ j v, nearestSel env u (enemiesOf cfg grid us u) = some (j, v) →
      (j, v) ∈ enemiesOf cfg grid us u ∧ us.get? j = some v ∧
      (v.playerId == u.playerId) = false ∧
      combatStep env cfg dt grid us u =
        us.set j { v with health := v.health - cfg.unitDPS * dt } ∧
      (0 ≤ cfg.unitDPS → 0 ≤ dt → v.health - cfg.unitDPS * dt ≤ v.health)) ∧
    ((∀ a b : ℚ, 0 ≤ a → 0 ≤ b → (env.sqrtq a < env.sqrtq b ↔ a < b)) →
      ∀ j v, nearestSel env u (enemiesOf cfg grid us u) = some (j, v) →
        (∀ e ∈ enemiesOf cfg grid us u, dSq u v ≤ dSq u e.2) ∧
        ∃ i, (enemiesOf cfg grid us u).get? i = some (j, v) ∧
          ∀ k e, k < i → (enemiesOf cfg grid us u).get? k = some e →
            dSq u v < dSq u e.2) := by
  refine ⟨fun st => rfl, ?_, ?_, ?_, ?_⟩
  · intro h
    simp [combatStep, h, nearestSel]
  · intro h
    cases hes : enemiesOf cfg grid us u with
    | nil => exact absurd hes h
    | cons e r => rw [nearestSel_eq]; rfl
  · intro j v hsel
    have hmem : (j, v) ∈ enemiesOf cfg grid us u := by
      cases hes : enemiesOf cfg grid us u with
      | nil => rw [hes] at hsel; simp [nearestSel] at hsel
      | cons e r =>
        rw [hes, nearestSel_eq, Option.some.injEq] at hsel
        have hm := selFold_mem (fun x => env.sqrtq (dSq u x.2)) e r
        rw [hsel] at hm
        exact hm
    obtain ⟨hget, hpid⟩ := mem_enemiesOf hmem
    refine ⟨hmem, hget, hpid, ?_, ?_⟩
    · unfold combatStep
      rw [hsel]
    · intro h1 h2
      have h3 : 0 ≤ cfg.unitDPS * dt := mul_nonneg h1 h2
      linarith
  · intro hiff j v hsel
    have hlt_iff : ∀ a b : Nat × FrenzyUnit,
        (env.sqrtq (dSq u a.2) < env.sqrtq (dSq u b.2)) ↔ dSq u a.2 < dSq u b.2 :=
      fun a b => hiff _ _ (dSq_nonneg u a.2) (dSq_nonneg u b.2)
    have hle_iff : ∀ a b : Nat × FrenzyUnit,
        (env.sqrtq (dSq u a.2) ≤ env.sqrtq (dSq u b.2)) ↔ dSq u a.2 ≤ dSq u b.2 := by
      intro a b
      rw [← not_lt, ← not_lt, not_iff_not]
      exact hlt_iff b a
    cases hes : enemiesOf cfg grid us u with
    | nil => rw [hes] at hsel; simp [nearestSel] at hsel
    | cons e r =>
      rw [hes, nearestSel_eq, Option.some.injEq] at hsel
      rcases selFold_spec (fun x => env.sqrtq (dSq u x.2)) e r with
        ⟨he, hmin⟩ | ⟨i, x, hget, hres, hlt, hearly, hmin⟩
      · rw [he] at hsel
        have hv2 : e.2 = v := by rw [hsel]
        constructor
        · intro y hy
          rcases List.mem_cons.mp hy with h | h
          · rw [h, hv2]
          · have hx := (hle_iff e y).mp (hmin y h)
            rw [hv2] at hx
            exact hx
        · refine ⟨0, by simp [hsel], ?_⟩
          intro k e2 hk _
          exact absurd hk (Nat.not_lt_zero k)
      · rw [hres] at hsel
        have hv2 : x.2 = v := by rw [hsel]
        constructor
        · intro y hy
          rcases List.mem_cons.mp hy with h | h
          · have hx := (hle_iff x e).mp (le_of_lt hlt)
            rw [hv2] at hx
            rw [h]
            exact hx
          · have hx := (hle_iff x y).mp (hmin y h)
            rw [hv2] at hx
            exact hx
        · refine ⟨i + 1, ?_, ?_⟩
          · rw [← hsel]
            simpa using hget
          · intro k e2 hk hke
            cases k with
            | zero =>
              have he2 : e = e2 := by simpa using hke
              have hx := (hlt_iff x e).mp hlt
              rw [hv2, he2] at hx
              exact hx
            | succ k2 =>
              have hx := (hlt_iff x e2).mp (hearly k2 e2 (by omega) (by simpa using hke))
              rw [hv2] at hx
              exact hx

/-- Concrete attacker for the C5 witness. -/
def unitA : FrenzyUnit :=
  { id := 1, playerId := 1, x := 2, y := 2, vx := 0, vy := 0, health := 100,
    targetX := 2, targetY := 2 }

/-- Concrete enemy for the C5 witness. -/
def unitB : FrenzyUnit :=
  { id := 2, playerId := 2, x := 3, y := 2, vx := 0, vy := 0, health := 10,
    targetX := 3, targetY := 2 }

/-- Grid indexing `unitA` (index 0) and `unitB` (index 1), both in cell (0,0). -/
def gridAB : SpatialHashGrid :=
  { cellSize := 50, cells := [((0, 0), 0), ((0, 0), 1)] }

/-- Environment with the identity as the abstract root (strictly monotone on
non-negatives) and the spawn phase over. -/
def envCombat : Env :=
  { width := 10, height := 10, isValidCoord := fun _ _ => false,
    ref := fun _ _ => 0, tileX := fun _ => 0, tileY := fun _ => 0,
    isWater := fun _ => false, neighbors := fun _ => [], allTiles := [],
    players := [], inSpawnPhase := false, rand := fun _ => 1/2,
    sqrtq := fun q => q }

theorem C5_combat_nearest_witness :
    nearestSel envCombat unitA (enemiesOf cfgA gridAB [unitA, unitB] unitA) =
      some (1, unitB) ∧
    combatStep envCombat cfgA 1 gridAB [unitA, unitB] unitA =
      [unitA, unitB].set 1 { unitB with health := unitB.health - cfgA.unitDPS * 1 } ∧
    (∀ e ∈ enemiesOf cfgA gridAB [unitA, unitB] unitA,
      dSq unitA unitB ≤ dSq unitA e.2) := by
  have hsel : nearestSel envCombat unitA (enemiesOf cfgA gridAB [unitA, unitB] unitA) =
      some (1, unitB) := by
    norm_num [nearestSel, enemiesOf, resolveIdx, SpatialHashGrid.getNearby, selFold,
      dSq, unitA, unitB, gridAB, envCombat, cfgA, List.filterMap, List.filter]
    rfl
  refine ⟨hsel,
    ((C5_combat_nearest envCombat cfgA 1 gridAB [unitA, unitB] unitA).2.2.2.1
      1 unitB hsel).2.2.2.1,
    fun e he =>
      ((C5_combat_nearest envCombat cfgA 1 gridAB [unitA, unitB] unitA).2.2.2.2
        (fun a b h1 h2 => Iff.rfl) 1 unitB hsel).1 e he⟩

/-! ## Claim C6: spawn-timer advance and conditional spawning -/

/-- The unit `spawnUnit` pushes when called at cursor state `st` for owner
`pid` at position (x, y). -/
def spawnedUnitAt (env : Env) (st : FrenzyState) (pid : PlayerId) (x y : ℚ) :
    FrenzyUnit :=
  { id := st.nextUnitId, playerId := pid,
    x := x + (env.rand st.randIdx - 1/2) * 20,
    y := y + (env.rand (st.randIdx + 1) - 1/2) * 20,
    vx := 0, vy := 0, health := st.config.unitHealth, targetX := x, targetY := y }

/-- C6: `updateSpawnTimers` runs the per-HQ step over every HQ; one step
always decrements the HQ's timer by the delta time, and spawns exactly one
unit at the HQ position (with jitter) while resetting the timer to the HQ's
interval if and only if the decremented timer is ≤ 0 and the recorded unit
count is strictly below the cap; otherwise no unit is spawned, no id/random
cursor is consumed, and the timer is not reset. -/
theorem C6_spawn_timers (env : Env) (dt : ℚ) (st : FrenzyState) (pid : PlayerId)
    (b : CoreBuilding) (hb : mapGet st.coreBuildings pid = some b) :
    (updateSpawnTimers env dt st =
      (st.coreBuildings.map Prod.fst).foldl (spawnTimerStep env dt) st) ∧
    (b.spawnTimer - dt ≤ 0 ∧ b.unitCount < (st.config.maxUnitsPerPlayer : Int) →
      (spawnTimerStep env dt st pid).units =
        st.units ++ [spawnedUnitAt env st pid b.x b.y] ∧
      (spawnTimerStep env dt st pid).nextUnitId = st.nextUnitId + 1 ∧
      (spawnTimerStep env dt st pid).randIdx = st.randIdx + 2 ∧
      (spawnTimerStep env dt st pid).coreBuildings =
        mapSet st.coreBuildings pid
          { b with spawnTimer := b.spawnInterval, unitCount := b.unitCount + 1 } ∧
      (spawnTimerStep env dt st pid).config = st.config) ∧
    (¬ (b.spawnTimer - dt ≤ 0 ∧ b.unitCount < (st.config.maxUnitsPerPlayer : Int)) →
      (spawnTimerStep env dt st pid).units = st.units ∧
      (spawnTimerStep env dt st pid).nextUnitId = st.nextUnitId ∧
      (spawnTimerStep env dt st pid).randIdx = st.randIdx ∧
      (spawnTimerStep env dt st pid).coreBuildings =
        mapSet st.coreBuildings pid { b with spawnTimer := b.spawnTimer - dt } ∧
      (spawnTimerStep env dt st pid).config = st.config) := by
  refine ⟨rfl, ?_, ?_⟩
  · intro h
    unfold spawnTimerStep
    simp only [hb]
    rw [if_pos h]
    simp [spawnUnit, mapGet_mapSet_same, mapSet_mapSet, spawnedUnitAt]
  · intro h
    unfold spawnTimerStep
    simp only [hb]
    rw [if_neg h]
    simp

/-- HQ for the C6 witness: timer about to elapse, zero units recorded. -/
def bSpawn : CoreBuilding :=
  { playerId := 1, x := 2, y := 2, spawnTimer := 1/2, spawnInterval := 4,
    unitCount := 0 }

/-- State for the C6 witness. -/
def stSpawn : FrenzyState :=
  { units := [], coreBuildings := [(1, bSpawn)],
    grid := { cellSize := 50, cells := [] }, nextUnitId := 1, config := cfgA,
    randIdx := 0, owner := ownOneTile }

theorem C6_spawn_timers_witness :
    mapGet stSpawn.coreBuildings 1 = some bSpawn ∧
    (bSpawn.spawnTimer - 1 ≤ 0 ∧
      bSpawn.unitCount < (stSpawn.config.maxUnitsPerPlayer : Int)) ∧
    (spawnTimerStep envOneTile 1 stSpawn 1).units =
      stSpawn.units ++ [spawnedUnitAt envOneTile stSpawn 1 bSpawn.x bSpawn.y] ∧
    (spawnTimerStep envOneTile 1 stSpawn 1).coreBuildings =
      mapSet stSpawn.coreBuildings 1
        { bSpawn with spawnTimer := bSpawn.spawnInterval,
                      unitCount := bSpawn.unitCount + 1 } :=
  ⟨rfl, by norm_num [bSpawn, stSpawn, cfgA],
   ((C6_spawn_timers envOneTile 1 stSpawn 1 bSpawn rfl).2.1
      (by norm_num [bSpawn, stSpawn, cfgA])).1,
   ((C6_spawn_timers envOneTile 1 stSpawn 1 bSpawn rfl).2.1
      (by norm_num [bSpawn, stSpawn, cfgA])).2.2.2.1⟩

/-! ## Claim C9: movement and targeting never divide by zero -/

theorem safeDiv_isSome {a b : ℚ} (h : b ≠ 0) : (safeDiv a b).isSome = true := by
  simp [safeDiv, h]

theorem orOne_ne_zero (q : ℚ) : orOne q ≠ 0 := by
  unfold orOne
  split
  · exact one_ne_zero
  · assumption

theorem max_tenth_ne_zero (z : ℚ) : max (1/10 : ℚ) z ≠ 0 :=
  ne_of_gt (lt_of_lt_of_le (by norm_num) (le_max_left _ _))

theorem isSome_bind {α β : Type} {o : Option α} {f : α → Option β}
    (h : o.isSome = true) (hf : ∀ a, (f a).isSome = true) :
    (o.bind f).isSome = true := by
  cases o with
  | none => simp at h
  | some a => simpa using hf a

theorem isSome_foldlM {σ α : Type} {f : σ → α → Option σ} {l : List α} {init : σ}
    (h : ∀ s a, (f s a).isSome = true) : (l.foldlM f init).isSome = true := by
  induction l generalizing init with
  | nil => simp [List.foldlM]
  | cons a t ih =>
    rw [List.foldlM_cons]
    exact isSome_bind (h init a) fun s => ih

theorem candidateScore_isSome (env : Env) (cfg : FrenzyConfig)
    (ux uy uLen cx cy x0 y0 : ℚ) (nb : Nat) (hu : uLen ≠ 0) :
    (candidateScore env cfg ux uy uLen cx cy x0 y0 nb).isSome = true := by
  unfold candidateScore
  exact isSome_bind (safeDiv_isSome (mul_ne_zero (orOne_ne_zero _) hu))
    fun alignment => safeDiv_isSome (max_tenth_ne_zero _)

theorem bestCand_isSome (env : Env) (cfg : FrenzyConfig) (own : Nat → PlayerId)
    (p : PlayerId) (ux uy uLen cx cy x0 y0 : ℚ) (borderTiles : List Nat)
    (hu : uLen ≠ 0) :
    (bestCand env cfg own p ux uy uLen cx cy x0 y0 borderTiles).isSome = true := by
  unfold bestCand
  refine isSome_foldlM fun best bt => isSome_foldlM fun best2 nb => ?_
  by_cases h1 : (own nb == p) = true
  · simp [h1]
  · by_cases h2 : env.isWater nb = true
    · simp [h1, h2]
    · simp only [h1, h2, Bool.false_eq_true, if_false]
      exact isSome_bind (candidateScore_isSome env cfg ux uy uLen cx cy x0 y0 nb hu)
        fun s3 => by simp

theorem targetPosFor_isSome (env : Env) (cfg : FrenzyConfig) (own : Nat → PlayerId)
    (tiles : List Nat) (unit : FrenzyUnit) :
    (targetPosFor env cfg own tiles unit).isSome = true := by
  simp only [targetPosFor]
  split
  · simp
  next hb =>
    have hlen : ((tiles.length : ℚ)) ≠ 0 := by
      have hle := List.length_filter_le
        (fun t => (env.neighbors t).any fun n => !(own n == unit.playerId)) tiles
      have hnz : tiles.length ≠ 0 := fun hz => hb (Nat.le_zero.mp (hz ▸ hle))
      exact_mod_cast hnz
    refine isSome_bind (safeDiv_isSome hlen) fun cx => ?_
    refine isSome_bind (safeDiv_isSome hlen) fun cy => ?_
    refine isSome_bind (bestCand_isSome env cfg own unit.playerId _ _ _ _ _ _ _ _
      (orOne_ne_zero _)) fun best => ?_
    cases best with
    | none => simp
    | some pair =>
      obtain ⟨bt, sc⟩ := pair
      split
      next =>
        split
        · exact isSome_bind (safeDiv_isSome (orOne_ne_zero _))
            fun qx => isSome_bind (safeDiv_isSome (orOne_ne_zero _)) fun qy => by simp
        · simp
      next => simp

theorem applySeparationV_isSome (env : Env) (cfg : FrenzyConfig)
    (grid : SpatialHashGrid) (us : List FrenzyUnit) (unit : FrenzyUnit)
    (vx1 vy1 : ℚ) :
    (applySeparationV env cfg grid us unit vx1 vy1).isSome = true := by
  unfold applySeparationV
  refine isSome_bind (isSome_foldlM fun s idx => ?_) fun acc => ?_
  · cases h : us.get? idx with
    | none => simp
    | some other =>
      simp only []
      split
      · split
        next h3 =>
          exact isSome_bind (safeDiv_isSome (ne_of_gt h3.1))
            fun ax => isSome_bind (safeDiv_isSome (ne_of_gt h3.1)) fun ay => by simp
        next => simp
      · simp
  · split
    next hc =>
      have hne : acc.2.2 ≠ 0 := Nat.pos_iff_ne_zero.mp hc
      have hcast : ((acc.2.2 : ℚ)) ≠ 0 := by exact_mod_cast hne
      exact isSome_bind (safeDiv_isSome hcast)
        fun mx => isSome_bind (safeDiv_isSome hcast) fun my => by simp
    next => simp

theorem moveUnitStep_isSome (env : Env) (dt : ℚ) (cfg : FrenzyConfig)
    (own : Nat → PlayerId) (grid : SpatialHashGrid) (us : List FrenzyUnit)
    (i : Nat) : (moveUnitStep env dt cfg own grid us i).isSome = true := by
  unfold moveUnitStep
  cases h : us.get? i with
  | none => simp
  | some unit =>
    simp only []
    split
    · simp
    · refine isSome_bind (targetPosFor_isSome env cfg own _ unit) fun tp => ?_
      split
      next hlt =>
        have hdist : env.sqrtq ((tp.1 - unit.x) * (tp.1 - unit.x) +
            (tp.2 - unit.y) * (tp.2 - unit.y)) ≠ 0 :=
          ne_of_gt (lt_of_le_of_lt (le_max_left 0 cfg.stopDistance) hlt)
        exact isSome_bind (safeDiv_isSome hdist)
          fun nx0 => isSome_bind (safeDiv_isSome hdist)
            fun ny0 => isSome_bind (applySeparationV_isSome env cfg grid us unit _ _)
              fun v => by simp
      next => simp

/-- C9: the checked movement-and-targeting computation (where every division
site fails on a zero divisor) always succeeds: every zero-length direction
vector has been replaced by 1 and every dividing branch is guarded, so no
division by zero, NaN, or exception can arise; `updateUnits` is exactly the
successful result. -/
theorem C9_no_division_by_zero (env : Env) (dt : ℚ) (st : FrenzyState) :
    (updateUnitsChecked env dt st).isSome = true ∧
    (∀ us2, updateUnitsChecked env dt st = some us2 →
      updateUnits env dt st = { st with units := us2 }) := by
  constructor
  · exact isSome_foldlM fun s i => moveUnitStep_isSome env dt st.config st.owner st.grid s i
  · intro us2 h
    unfold updateUnits
    rw [h]

theorem C9_no_division_by_zero_witness :
    (updateUnitsChecked envCombat 1 (initialState cfgA ownOneTile)).isSome = true ∧
    updateUnits envCombat 1 (initialState cfgA ownOneTile) =
      { initialState cfgA ownOneTile with units := [] } :=
  ⟨(C9_no_division_by_zero envCombat 1 (initialState cfgA ownOneTile)).1,
   (C9_no_division_by_zero envCombat 1 (initialState cfgA ownOneTile)).2 [] rfl⟩

/-! ## Claim C2: dead units — purge holds, same-tick exclusion fails -/

/-- Two-unit combat state used by the C2 analysis: units A (player 1, 100hp)
and B (player 2, 10hp) within combat range, grid built for both. -/
def stAB : FrenzyState :=
  { units := [unitA, unitB], coreBuildings := [], grid := gridAB,
    nextUnitId := 3, config := cfgA, randIdx := 0, owner := fun _ => 0 }

/-- C2 (amended): a unit whose health is ≤ 0 at the cleanup step is purged
before the next tick — after any non-spawn-phase tick every unit in the live
list returned by getUnits has strictly positive health. (The original
exclusion-within-the-same-tick part of the claim is refuted by
`C2_dead_unit_still_acts`.) -/
theorem C2_dead_purged_after_tick (env : Env) (dt : ℚ) (st : FrenzyState)
    (h : env.inSpawnPhase = false) :
    ∀ u ∈ getUnits (tick env dt st), 0 < u.health := by
  intro u hu
  unfold tick at hu
  rw [h] at hu
  simp only [Bool.false_eq_true, if_false] at hu
  simp only [getUnits, rebuildSpatialGrid, removeDeadUnits] at hu
  exact of_decide_eq_true (List.mem_filter.mp hu).2

theorem C2_dead_purged_after_tick_witness :
    envCombat.inSpawnPhase = false ∧
    ∀ u ∈ getUnits (tick envCombat 1 stAB), 0 < u.health :=
  ⟨rfl, C2_dead_purged_after_tick envCombat 1 stAB rfl⟩

/-- C2 counterexample: in the combat pass of a single tick, unit A's step
drops unit B to health −5 ≤ 0, and the then-dead B's own step still subtracts
damage from A (100 → 85): a unit with health ≤ 0 is NOT excluded from
subsequent processing within the same tick. The tick's cleanup then purges B,
so only the 85-health A survives in getUnits. -/
theorem C2_dead_unit_still_acts :
    combatStep envCombat cfgA 1 gridAB [unitA, unitB] unitA =
      [unitA, { unitB with health := -5 }] ∧
    ((-5 : ℚ) ≤ 0) ∧
    combatStep envCombat cfgA 1 gridAB [unitA, { unitB with health := -5 }]
      { unitB with health := -5 } =
      [{ unitA with health := 85 }, { unitB with health := -5 }] ∧
    (updateCombat envCombat 1 stAB).units =
      [{ unitA with health := 85 }, { unitB with health := -5 }] ∧
    ((85 : ℚ) ≠ 100) ∧
    getUnits (tick envCombat 1 stAB) = [{ unitA with health := 85 }] := by
  have hs1 : combatStep envCombat cfgA 1 gridAB [unitA, unitB] unitA =
      [unitA, { unitB with health := -5 }] := by
    have hf1 : (⌊((2:ℚ) - 25) / 50⌋ : Int) = -1 := by norm_num
    have hf2 : (⌊((2:ℚ) + 25) / 50⌋ : Int) = 0 := by norm_num
    simp [combatStep, nearestSel, enemiesOf, resolveIdx, SpatialHashGrid.getNearby,
      selFold, dSq, unitA, unitB, gridAB, envCombat, cfgA, List.filterMap, List.filter,
      hf1, hf2]
    norm_num
  have hs2 : combatStep envCombat cfgA 1 gridAB [unitA, { unitB with health := -5 }]
      { unitB with health := -5 } =
      [{ unitA with health := 85 }, { unitB with health := -5 }] := by
    have hf1 : (⌊((3:ℚ) - 25) / 50⌋ : Int) = -1 := by norm_num
    have hf2 : (⌊((3:ℚ) + 25) / 50⌋ : Int) = 0 := by norm_num
    have hf3 : (⌊((2:ℚ) - 25) / 50⌋ : Int) = -1 := by norm_num
    have hf4 : (⌊((2:ℚ) + 25) / 50⌋ : Int) = 0 := by norm_num
    simp [combatStep, nearestSel, enemiesOf, resolveIdx, SpatialHashGrid.getNearby,
      selFold, dSq, unitA, unitB, gridAB, envCombat, cfgA, List.filterMap, List.filter,
      hf1, hf2, hf3, hf4]
    norm_num
  have hcombFull : updateCombat envCombat 1 stAB =
      { stAB with units := [{ unitA with health := 85 }, { unitB with health := -5 }] } := by
    simp only [updateCombat, stAB, List.length_cons, List.length_nil, List.range_succ,
      List.range_zero, List.nil_append, List.foldl_cons, List.foldl_nil, List.append_nil,
      List.cons_append, List.get?_cons_zero, List.get?_cons_succ, hs1, hs2]
  have hpre : updateSpawnTimers envCombat 1 (hqSpawnPhase envCombat stAB) = stAB := rfl
  have hmove : updateUnits envCombat 1 stAB = stAB := rfl
  have henv : envCombat.inSpawnPhase = false := rfl
  refine ⟨hs1, by norm_num, hs2, by rw [hcombFull], by norm_num, ?_⟩
  unfold tick
  rw [henv]
  simp only [Bool.false_eq_true, if_false]
  rw [hpre, hmove, hcombFull]
  rfl

/-! ## Claim C4: cap enforcement trims to the cap, keeping the earliest units -/

/-- The units of one player, in list (spawn) order. -/
def playerUnits (us : List FrenzyUnit) (p : PlayerId) : List FrenzyUnit :=
  us.filter fun u => u.playerId == p

theorem mapGet_decClamped (bs : List (PlayerId × CoreBuilding)) (p q : PlayerId) :
    mapGet (decClamped bs p) q =
      if p = q then
        (mapGet bs p).map fun b => { b with unitCount := max (b.unitCount - 1) 0 }
      else mapGet bs q := by
  unfold decClamped
  cases h : mapGet bs p with
  | none =>
    by_cases hpq : p = q
    · subst hpq; simp [h]
    · simp [hpq]
  | some b =>
    rw [mapGet_mapSet]
    by_cases hpq : p = q
    · simp [hpq, h]
    · simp [hpq]

theorem enforceAux_filter (cap : Nat) (q : PlayerId) :
    ∀ (units : List FrenzyUnit) (counts : PlayerId → Nat)
      (bs : List (PlayerId × CoreBuilding)),
      playerUnits (enforceAux cap counts units bs).1 q =
        (playerUnits units q).take (cap - counts q) := by
  intro units
  induction units with
  | nil => intro counts bs; simp [enforceAux, playerUnits]
  | cons u rest ih =>
    intro counts bs
    by_cases hc : counts u.playerId + 1 ≤ cap
    · simp only [enforceAux, if_pos hc]
      by_cases hq : u.playerId = q
      · subst hq
        have h1 : playerUnits (u :: (enforceAux cap
            (fun r => if r == u.playerId then counts u.playerId + 1 else counts r)
            rest bs).1) u.playerId =
            u :: playerUnits (enforceAux cap
              (fun r => if r == u.playerId then counts u.playerId + 1 else counts r)
              rest bs).1 u.playerId := by
          simp [playerUnits, List.filter_cons]
        rw [h1, ih]
        have h2 : playerUnits (u :: rest) u.playerId = u :: playerUnits rest u.playerId := by
          simp [playerUnits, List.filter_cons]
        rw [h2]
        have h3 : (if u.playerId == u.playerId then counts u.playerId + 1
            else counts u.playerId) = counts u.playerId + 1 := by simp
        rw [h3]
        have h4 : cap - counts u.playerId = (cap - (counts u.playerId + 1)) + 1 := by omega
        rw [h4, List.take_succ_cons]
      · have h1 : playerUnits (u :: (enforceAux cap
            (fun r => if r == u.playerId then counts u.playerId + 1 else counts r)
            rest bs).1) q =
            playerUnits (enforceAux cap
              (fun r => if r == u.playerId then counts u.playerId + 1 else counts r)
              rest bs).1 q := by
          simp [playerUnits, List.filter_cons, hq]
        rw [h1, ih]
        have h2 : playerUnits (u :: rest) q = playerUnits rest q := by
          simp [playerUnits, List.filter_cons, hq]
        rw [h2]
        have h3 : (if q == u.playerId then counts u.playerId + 1 else counts q) =
            counts q := by
          have : ¬ q = u.playerId := fun h => hq h.symm
          simp [this]
        rw [h3]
    · simp only [enforceAux, if_neg hc]
      by_cases hq : u.playerId = q
      · subst hq
        have hge : cap ≤ counts u.playerId := by omega
        rw [ih]
        have h2 : playerUnits (u :: rest) u.playerId = u :: playerUnits rest u.playerId := by
          simp [playerUnits, List.filter_cons]
        rw [h2]
        have h4 : cap - counts u.playerId = 0 := by omega
        simp [h4]
      · rw [ih]
        have h2 : playerUnits (u :: rest) q = playerUnits rest q := by
          simp [playerUnits, List.filter_cons, hq]
        rw [h2]

theorem enforceAux_building_none (cap : Nat) (q : PlayerId) :
    ∀ (units : List FrenzyUnit) (counts : PlayerId → Nat)
      (bs : List (PlayerId × CoreBuilding)),
      mapGet bs q = none →
      mapGet (enforceAux cap counts units bs).2 q = none := by
  intro units
  induction units with
  | nil => intro counts bs h; simpa [enforceAux] using h
  | cons u rest ih =>
    intro counts bs h
    by_cases hc : counts u.playerId + 1 ≤ cap
    · simp only [enforceAux, if_pos hc]
      exact ih _ bs h
    · simp only [enforceAux, if_neg hc]
      apply ih
      rw [mapGet_decClamped]
      by_cases hq : u.playerId = q
      · subst hq; simp [h]
      · simp [hq, h]

theorem enforceAux_mem (cap : Nat) :
    ∀ (units : List FrenzyUnit) (counts : PlayerId → Nat)
      (bs : List (PlayerId × CoreBuilding)) (x : FrenzyUnit),
      x ∈ (enforceAux cap counts units bs).1 → x ∈ units := by
  intro units
  induction units with
  | nil => intro counts bs x h; simp [enforceAux] at h
  | cons u rest ih =>
    intro counts bs x h
    by_cases hc : counts u.playerId + 1 ≤ cap
    · simp only [enforceAux, if_pos hc] at h
      rcases List.mem_cons.mp h with h | h
      · exact h ▸ List.mem_cons_self u rest
      · exact List.mem_cons_of_mem u (ih _ bs x h)
    · simp only [enforceAux, if_neg hc] at h
      exact List.mem_cons_of_mem u (ih _ _ x h)

/-- Result of `k` clamped decrements `unitCount = max(unitCount - 1, 0)`. -/
def trimCount (b : CoreBuilding) (dropped : Nat) : CoreBuilding :=
  if dropped = 0 then b
  else { b with unitCount := max (b.unitCount - (dropped : Int)) 0 }

theorem enforceAux_building (cap : Nat) (q : PlayerId) :
    ∀ (units : List FrenzyUnit) (counts : PlayerId → Nat)
      (bs : List (PlayerId × CoreBuilding)) (b : CoreBuilding),
      mapGet bs q = some b →
      mapGet (enforceAux cap counts units bs).2 q =
        some (trimCount b ((playerUnits units q).length - (cap - counts q))) := by
  intro units
  induction units with
  | nil =>
    intro counts bs b h
    simp [enforceAux, playerUnits, trimCount, h]
  | cons u rest ih =>
    intro counts bs b h
    by_cases hc : counts u.playerId + 1 ≤ cap
    · simp only [enforceAux, if_pos hc]
      rw [ih _ bs b h]
      by_cases hq : u.playerId = q
      · subst hq
        have hlen : playerUnits (u :: rest) u.playerId =
            u :: playerUnits rest u.playerId := by
          simp [playerUnits, List.filter_cons]
        rw [hlen]
        have hcounts : (if u.playerId == u.playerId then counts u.playerId + 1
            else counts u.playerId) = counts u.playerId + 1 := by simp
        rw [hcounts]
        have harith : (playerUnits rest u.playerId).length -
            (cap - (counts u.playerId + 1)) =
            (u :: playerUnits rest u.playerId).length - (cap - counts u.playerId) := by
          simp only [List.length_cons]
          omega
        rw [harith]
      · have hlen : playerUnits (u :: rest) q = playerUnits rest q := by
          simp [playerUnits, List.filter_cons, hq]
        rw [hlen]
        have hcounts : (if q == u.playerId then counts u.playerId + 1 else counts q) =
            counts q := by
          have hne : ¬ q = u.playerId := fun h2 => hq h2.symm
          simp [hne]
        rw [hcounts]
    · simp only [enforceAux, if_neg hc]
      by_cases hq : u.playerId = q
      · subst hq
        have hcap0 : cap - counts u.playerId = 0 := by omega
        have hb2 : mapGet (decClamped bs u.playerId) u.playerId =
            some { b with unitCount := max (b.unitCount - 1) 0 } := by
          rw [mapGet_decClamped]
          simp [h]
        rw [ih _ _ _ hb2]
        have hlen : playerUnits (u :: rest) u.playerId =
            u :: playerUnits rest u.playerId := by
          simp [playerUnits, List.filter_cons]
        rw [hlen]
        simp only [List.length_cons, hcap0, Nat.sub_zero]
        by_cases hlr : (playerUnits rest u.playerId).length = 0
        · rw [hlr]
          simp only [trimCount]
          norm_num
        · simp only [trimCount, hlr, if_false, Nat.add_eq_zero, one_ne_zero, and_false]
          have hv : max (max (b.unitCount - 1) 0 -
              ((playerUnits rest u.playerId).length : Int)) 0 =
              max (b.unitCount -
                (((playerUnits rest u.playerId).length + 1 : Nat) : Int)) 0 := by
            push_cast
            omega
          simp only [Option.some.injEq]
          rw [← hv]
      · have hb2 : mapGet (decClamped bs u.playerId) q = some b := by
          rw [mapGet_decClamped, if_neg hq]
          exact h
        rw [ih _ _ _ hb2]
        have hlen : playerUnits (u :: rest) q = playerUnits rest q := by
          simp [playerUnits, List.filter_cons, hq]
        rw [hlen]

theorem mapGet_syncBuildings (cfg : FrenzyConfig)
    (bs : List (PlayerId × CoreBuilding)) (q : PlayerId) :
    mapGet (syncBuildings cfg bs) q =
      (mapGet bs q).map fun bb =>
        { bb with
          spawnInterval := cfg.spawnInterval,
          spawnTimer := min bb.spawnTimer cfg.spawnInterval } := by
  induction bs with
  | nil => simp [syncBuildings, mapGet]
  | cons hd tl ih =>
    obtain ⟨k, c⟩ := hd
    by_cases hk : k = q
    · subst hk; simp [syncBuildings, mapGet]
    · simp only [syncBuildings, List.map_cons] at ih ⊢
      simp [mapGet, hk, ih]

/-- C4 (amended): when a configuration update sets `maxUnitsPerPlayer` to `m`
at or below a player's current live count, cap enforcement immediately trims
that player's units to exactly `m`, keeping the earliest-spawned units and
destroying the most recently spawned surplus (the original claim's
"oldest-surplus removed" is refuted by `C4_cap_trim_keeps_oldest`); when the
structure's recorded count was accurate it is synced to the number kept. -/
theorem C4_cap_trim (st : FrenzyState) (patch : FrenzyConfigPatch) (m : Nat)
    (p : PlayerId) (b : CoreBuilding)
    (hpatch : patch.maxUnitsPerPlayer = some m)
    (hb : mapGet st.coreBuildings p = some b)
    (hacc : b.unitCount = ((playerUnits st.units p).length : Int))
    (hlow : m ≤ (playerUnits st.units p).length) :
    playerUnits (updateConfig patch st).units p = (playerUnits st.units p).take m ∧
    getUnitCount (updateConfig patch st) p = m ∧
    ∃ b2, mapGet (updateConfig patch st).coreBuildings p = some b2 ∧
      b2.unitCount = (m : Int) := by
  have hsome : patch.maxUnitsPerPlayer.isSome = true := by rw [hpatch]; rfl
  have hcap : (mergeConfig st.config patch).maxUnitsPerPlayer = m := by
    simp [mergeConfig, hpatch]
  have heq : updateConfig patch st =
      enforceUnitCaps
        { st with
          config := mergeConfig st.config patch,
          coreBuildings := syncBuildings (mergeConfig st.config patch) st.coreBuildings } := by
    unfold updateConfig
    rw [if_pos hsome]
  rw [heq]
  unfold enforceUnitCaps
  simp only [hcap]
  have hbs : mapGet (syncBuildings (mergeConfig st.config patch) st.coreBuildings) p =
      some
        { b with
          spawnInterval := (mergeConfig st.config patch).spawnInterval,
          spawnTimer := min b.spawnTimer (mergeConfig st.config patch).spawnInterval } := by
    rw [mapGet_syncBuildings, hb]
    rfl
  have hk := enforceAux_filter m p st.units (fun _ => 0)
    (syncBuildings (mergeConfig st.config patch) st.coreBuildings)
  have hb2 := enforceAux_building m p st.units (fun _ => 0)
    (syncBuildings (mergeConfig st.config patch) st.coreBuildings) _ hbs
  refine ⟨?_, ?_, ?_⟩
  · simpa using hk
  · show (playerUnits (enforceAux m (fun _ => 0) st.units
      (syncBuildings (mergeConfig st.config patch) st.coreBuildings)).1 p).length = m
    rw [hk]
    simp only [Nat.sub_zero, List.length_take]
    omega
  · refine ⟨_, hb2, ?_⟩
    unfold trimCount
    simp only [Nat.sub_zero]
    by_cases hd : (playerUnits st.units p).length - m = 0
    · rw [if_pos hd]
      simp only []
      rw [hacc]
      have : (playerUnits st.units p).length = m := by omega
      rw [this]
    · rw [if_neg hd]
      simp only []
      rw [hacc]
      omega

/-- Earliest-spawned unit of player 1 (id 1). -/
def unitC1 : FrenzyUnit :=
  { id := 1, playerId := 1, x := 1, y := 1, vx := 0, vy := 0, health := 100,
    targetX := 1, targetY := 1 }

/-- Most recently spawned unit of player 1 (id 2). -/
def unitC2 : FrenzyUnit :=
  { id := 2, playerId := 1, x := 2, y := 1, vx := 0, vy := 0, health := 100,
    targetX := 2, targetY := 1 }

/-- HQ of player 1 with an accurate recorded count of 2. -/
def bTrim : CoreBuilding :=
  { playerId := 1, x := 1, y := 1, spawnTimer := 4, spawnInterval := 4,
    unitCount := 2 }

/-- State holding two units of player 1 in spawn order. -/
def stTrim : FrenzyState :=
  { units := [unitC1, unitC2], coreBuildings := [(1, bTrim)],
    grid := { cellSize := 50, cells := [] }, nextUnitId := 3, config := cfgA,
    randIdx := 0, owner := fun _ => 0 }

/-- C4 counterexample: lowering the cap to 1 for a player holding units with
ids [1, 2] (spawned in that order) keeps the EARLIEST unit (id 1) and
destroys the newest — not the oldest, as the claim states (which would have
kept [2]). -/
theorem C4_cap_trim_keeps_oldest :
    (updateConfig { maxUnitsPerPlayer := some 1 } stTrim).units.map FrenzyUnit.id = [1] ∧
    ¬ ((updateConfig { maxUnitsPerPlayer := some 1 } stTrim).units.map
        FrenzyUnit.id = [2]) := by
  have h : (updateConfig { maxUnitsPerPlayer := some 1 } stTrim).units = [unitC1] := by
    simp [updateConfig, mergeConfig, syncBuildings, enforceUnitCaps, enforceAux,
      decClamped, mapGet, mapSet, stTrim, unitC1, unitC2, bTrim, cfgA]
  rw [h]
  constructor
  · simp [unitC1]
  · simp [unitC1]

theorem C4_cap_trim_witness :
    mapGet stTrim.coreBuildings 1 = some bTrim ∧
    bTrim.unitCount = ((playerUnits stTrim.units 1).length : Int) ∧
    1 ≤ (playerUnits stTrim.units 1).length ∧
    playerUnits (updateConfig { maxUnitsPerPlayer := some 1 } stTrim).units 1 =
      (playerUnits stTrim.units 1).take 1 ∧
    getUnitCount (updateConfig { maxUnitsPerPlayer := some 1 } stTrim) 1 = 1 := by
  have hacc : bTrim.unitCount = ((playerUnits stTrim.units 1).length : Int) := by
    norm_num [bTrim, stTrim, playerUnits, unitC1, unitC2, List.filter]
  have hlow : 1 ≤ (playerUnits stTrim.units 1).length := by
    norm_num [stTrim, playerUnits, unitC1, unitC2, List.filter]
  exact ⟨rfl, hacc, hlow,
    (C4_cap_trim stTrim { maxUnitsPerPlayer := some 1 } 1 1 bTrim rfl rfl hacc hlow).1,
    (C4_cap_trim stTrim { maxUnitsPerPlayer := some 1 } 1 1 bTrim rfl rfl hacc hlow).2.1⟩

/-! ## Reachability and the unit-count bookkeeping invariant (claims C10, C3) -/

/-- Bookkeeping invariant: every live unit's owner has an HQ, and every HQ's
recorded `unitCount` equals its owner's live unit count. -/
def BookInv (st : FrenzyState) : Prop :=
  (∀ u ∈ st.units, (mapGet st.coreBuildings u.playerId).isSome = true) ∧
  (∀ p b, mapGet st.coreBuildings p = some b →
    b.unitCount = ((playerUnits st.units p).length : Int))

theorem spawnUnit_none (env : Env) (p : PlayerId) (x y : ℚ) (st : FrenzyState)
    (h : mapGet st.coreBuildings p = none) : spawnUnit env p x y st = st := by
  unfold spawnUnit
  rw [h]

theorem spawnUnit_some (env : Env) (p : PlayerId) (x y : ℚ) (st : FrenzyState)
    (b : CoreBuilding) (h : mapGet st.coreBuildings p = some b) :
    (spawnUnit env p x y st).units = st.units ++ [spawnedUnitAt env st p x y] ∧
    (spawnUnit env p x y st).coreBuildings =
      mapSet st.coreBuildings p { b with unitCount := b.unitCount + 1 } ∧
    (spawnUnit env p x y st).config = st.config ∧
    (spawnUnit env p x y st).owner = st.owner := by
  unfold spawnUnit
  rw [h]
  exact ⟨rfl, rfl, rfl, rfl⟩

theorem playerUnits_append (us vs : List FrenzyUnit) (q : PlayerId) :
    playerUnits (us ++ vs) q = playerUnits us q ++ playerUnits vs q :=
  List.filter_append us vs

theorem playerUnits_cons_self (u : FrenzyUnit) (us : List FrenzyUnit) :
    playerUnits (u :: us) u.playerId = u :: playerUnits us u.playerId := by
  simp [playerUnits, List.filter_cons]

theorem playerUnits_cons_other (u : FrenzyUnit) (us : List FrenzyUnit)
    (q : PlayerId) (h : u.playerId ≠ q) :
    playerUnits (u :: us) q = playerUnits us q := by
  simp [playerUnits, List.filter_cons, h]

theorem playerUnits_nil (q : PlayerId) : playerUnits [] q = [] := rfl

theorem no_units_of_no_building (st : FrenzyState) (p : PlayerId)
    (h1 : ∀ u ∈ st.units, (mapGet st.coreBuildings u.playerId).isSome = true)
    (h : mapGet st.coreBuildings p = none) : playerUnits st.units p = [] := by
  rw [playerUnits, List.filter_eq_nil_iff]
  intro u hu
  intro hpu
  have := h1 u hu
  have hup : u.playerId = p := by simpa using hpu
  rw [hup, h] at this
  simp at this

theorem BookInv_spawnUnit (env : Env) (p : PlayerId) (x y : ℚ) (st : FrenzyState)
    (h : BookInv st) : BookInv (spawnUnit env p x y st) := by
  cases hg : mapGet st.coreBuildings p with
  | none => rw [spawnUnit_none env p x y st hg]; exact h
  | some b =>
    obtain ⟨h1, h2, _, _⟩ := spawnUnit_some env p x y st b hg
    constructor
    · intro u hu
      rw [h1] at hu
      rw [h2, mapGet_mapSet]
      rcases List.mem_append.mp hu with hu | hu
      · by_cases hpq : p = u.playerId
        · simp [hpq]
        · rw [if_neg hpq]
          exact h.1 u hu
      · have hus : u = spawnedUnitAt env st p x y := by simpa using hu
        subst hus
        simp [spawnedUnitAt]
    · intro q c hq
      rw [h2, mapGet_mapSet] at hq
      rw [h1]
      by_cases hpq : p = q
      · subst hpq
        rw [if_pos rfl] at hq
        have hc := Option.some.inj hq
        have hb := h.2 p b hg
        have hpid : (spawnedUnitAt env st p x y).playerId = p := rfl
        have hlen : (playerUnits (st.units ++ [spawnedUnitAt env st p x y]) p).length =
            (playerUnits st.units p).length + 1 := by
          rw [playerUnits_append]
          rw [show playerUnits [spawnedUnitAt env st p x y] p =
            [spawnedUnitAt env st p x y] from by simp [playerUnits, spawnedUnitAt]]
          simp
        rw [hlen, ← hc]
        simp only []
        rw [hb]
        push_cast
        ring
      · rw [if_neg hpq] at hq
        have hb := h.2 q c hq
        have hlen : (playerUnits (st.units ++ [spawnedUnitAt env st p x y]) q).length =
            (playerUnits st.units q).length := by
          rw [playerUnits_append]
          rw [show playerUnits [spawnedUnitAt env st p x y] q = [] from by
            simp [playerUnits, spawnedUnitAt, List.filter_cons]
            intro heq
            exact absurd heq hpq]
          simp
        rw [hlen]
        exact hb

theorem BookInv_mapSet_same_count (st : FrenzyState) (pid : PlayerId)
    (b b1 : CoreBuilding) (hg : mapGet st.coreBuildings pid = some b)
    (hcnt : b1.unitCount = b.unitCount) (h : BookInv st) :
    BookInv { st with coreBuildings := mapSet st.coreBuildings pid b1 } := by
  constructor
  · intro u hu
    simp only []
    rw [mapGet_mapSet]
    by_cases hpq : pid = u.playerId
    · simp [hpq]
    · rw [if_neg hpq]
      exact h.1 u hu
  · intro q c hq
    simp only [] at hq ⊢
    rw [mapGet_mapSet] at hq
    by_cases hpq : pid = q
    · subst hpq
      rw [if_pos rfl] at hq
      rw [← Option.some.inj hq, hcnt]
      exact h.2 pid b hg
    · rw [if_neg hpq] at hq
      exact h.2 q c hq

theorem BookInv_spawnFold (env : Env) (p : PlayerId) (x y : ℚ) (l : List Nat) :
    ∀ st : FrenzyState, BookInv st →
      BookInv (l.foldl (fun s _ => spawnUnit env p x y s) st) := by
  induction l with
  | nil => intro st h; exact h
  | cons a t ih =>
    intro st h
    exact ih _ (BookInv_spawnUnit env p x y st h)

theorem mapHas_false_get_none (m : List (PlayerId × CoreBuilding)) (p : PlayerId)
    (h : ¬ mapHas m p = true) : mapGet m p = none := by
  unfold mapHas at h
  cases hg : mapGet m p with
  | none => rfl
  | some b => rw [hg] at h; simp at h

theorem BookInv_onPlayerSpawn (env : Env) (p : PlayerId) (st : FrenzyState)
    (h : BookInv st) : BookInv (onPlayerSpawn env p st) := by
  unfold onPlayerSpawn
  by_cases hh : mapHas st.coreBuildings p = true
  · rw [if_pos hh]; exact h
  · rw [if_neg hh]
    have hnone := mapHas_false_get_none st.coreBuildings p hh
    cases ht : tilesOf env st.owner p with
    | nil => exact h
    | cons t0 rest =>
      apply BookInv_spawnFold
      constructor
      · intro u hu
        simp only [] at hu ⊢
        rw [mapGet_mapSet]
        by_cases hpq : p = u.playerId
        · simp [hpq]
        · rw [if_neg hpq]
          exact h.1 u hu
      · intro q c hq
        simp only [] at hq ⊢
        rw [mapGet_mapSet] at hq
        by_cases hpq : p = q
        · subst hpq
          rw [if_pos rfl] at hq
          rw [← Option.some.inj hq]
          rw [no_units_of_no_building st p h.1 hnone]
          rfl
        · rw [if_neg hpq] at hq
          exact h.2 q c hq

theorem BookInv_spawnTimerStep (env : Env) (dt : ℚ) (st : FrenzyState)
    (pid : PlayerId) (h : BookInv st) : BookInv (spawnTimerStep env dt st pid) := by
  simp only [spawnTimerStep]
  split
  next => exact h
  next b hg =>
    have hInv1 : BookInv { st with coreBuildings := mapSet st.coreBuildings pid { b with spawnTimer := b.spawnTimer - dt } } :=
      BookInv_mapSet_same_count st pid b _ hg rfl h
    split
    next hcond =>
      have hInv2 := BookInv_spawnUnit env pid b.x b.y _ hInv1
      split
      next => exact hInv2
      next b2 hg2 => exact BookInv_mapSet_same_count _ pid b2 _ hg2 rfl hInv2
    next => exact hInv1

theorem BookInv_timersFold (env : Env) (dt : ℚ) (l : List PlayerId) :
    ∀ st : FrenzyState, BookInv st →
      BookInv (l.foldl (spawnTimerStep env dt) st) := by
  induction l with
  | nil => intro st h; exact h
  | cons a t ih =>
    intro st h
    exact ih _ (BookInv_spawnTimerStep env dt st a h)

theorem BookInv_updateSpawnTimers (env : Env) (dt : ℚ) (st : FrenzyState)
    (h : BookInv st) : BookInv (updateSpawnTimers env dt st) :=
  BookInv_timersFold env dt _ st h

theorem set_get_self {α : Type} :
    ∀ (l : List α) (i : Nat) (a : α), l.get? i = some a → l.set i a = l := by
  intro l
  induction l with
  | nil => intro i a h; simp at h
  | cons x t ih =>
    intro i a h
    cases i with
    | zero =>
      simp only [List.get?_cons_zero, Option.some.injEq] at h
      rw [List.set_cons_zero, h]
    | succ i2 =>
      simp only [List.get?_cons_succ] at h
      rw [List.set_cons_succ, ih i2 a h]

theorem map_pid_set (us : List FrenzyUnit) (i : Nat) (unit w : FrenzyUnit)
    (hget : us.get? i = some unit) (hpid : w.playerId = unit.playerId) :
    (us.set i w).map (fun u => u.playerId) = us.map (fun u => u.playerId) := by
  rw [List.map_set, hpid]
  apply set_get_self
  rw [List.get?_map, hget]
  rfl

theorem playerUnits_length_pidlist (q : PlayerId) :
    ∀ ws : List FrenzyUnit, (playerUnits ws q).length =
      ((ws.map fun u => u.playerId).filter fun r => r == q).length := by
  intro ws
  induction ws with
  | nil => rfl
  | cons w t ih =>
    simp only [playerUnits, List.filter_cons, List.map_cons] at ih ⊢
    by_cases hw : (w.playerId == q) = true
    · simp only [hw, if_true, List.length_cons]
      rw [ih]
    · simp only [hw, Bool.false_eq_true, if_false]
      rw [ih]

theorem playerUnits_length_congr (us vs : List FrenzyUnit)
    (h : us.map (fun u => u.playerId) = vs.map (fun u => u.playerId)) (q : PlayerId) :
    (playerUnits us q).length = (playerUnits vs q).length := by
  rw [playerUnits_length_pidlist q us, playerUnits_length_pidlist q vs, h]

theorem BookInv_units_congr (st : FrenzyState) (us2 : List FrenzyUnit)
    (h : us2.map (fun u => u.playerId) = st.units.map (fun u => u.playerId))
    (hI : BookInv st) : BookInv { st with units := us2 } := by
  constructor
  · intro u hu
    simp only []
    have hm : u.playerId ∈ us2.map (fun u => u.playerId) := List.mem_map_of_mem _ hu
    rw [h] at hm
    obtain ⟨v, hv, hpv⟩ := List.mem_map.mp hm
    rw [← hpv]
    exact hI.1 v hv
  · intro q c hq
    simp only [] at hq ⊢
    rw [show playerUnits us2 q = List.filter (fun u => u.playerId == q) us2 from rfl]
    rw [show (List.filter (fun u => u.playerId == q) us2).length =
      (playerUnits us2 q).length from rfl]
    rw [playerUnits_length_congr us2 st.units h q]
    exact hI.2 q c hq

theorem moveUnitStep_map_pid (env : Env) (dt : ℚ) (cfg : FrenzyConfig)
    (own : Nat → PlayerId) (grid : SpatialHashGrid) (us : List FrenzyUnit) (i : Nat)
    (us2 : List FrenzyUnit) (h : moveUnitStep env dt cfg own grid us i = some us2) :
    us2.map (fun u => u.playerId) = us.map (fun u => u.playerId) := by
  simp only [moveUnitStep] at h
  split at h
  next =>
    rw [← Option.some.inj h]
  next unit hget =>
    split at h
    next =>
      rw [← Option.some.inj h]
    next =>
      rcases Option.bind_eq_some.mp h with ⟨tp, htp, h⟩
      split at h
      next =>
        rcases Option.bind_eq_some.mp h with ⟨nx0, h1, h⟩
        rcases Option.bind_eq_some.mp h with ⟨ny0, h2, h⟩
        rcases Option.bind_eq_some.mp h with ⟨v, h3, h⟩
        rw [← Option.some.inj h]
        exact map_pid_set us i unit _ hget rfl
      next =>
        rw [← Option.some.inj h]
        exact map_pid_set us i unit _ hget rfl

theorem foldlM_map_pid (env : Env) (dt : ℚ) (cfg : FrenzyConfig)
    (own : Nat → PlayerId) (grid : SpatialHashGrid) :
    ∀ (l : List Nat) (us r : List FrenzyUnit),
      l.foldlM (moveUnitStep env dt cfg own grid) us = some r →
      r.map (fun u => u.playerId) = us.map (fun u => u.playerId) := by
  intro l
  induction l with
  | nil =>
    intro us r h
    simp only [List.foldlM_nil] at h
    rw [← Option.some.inj h]
  | cons a t ih =>
    intro us r h
    rw [List.foldlM_cons] at h
    rcases Option.bind_eq_some.mp h with ⟨mid, hmid, h⟩
    exact (ih mid r h).trans (moveUnitStep_map_pid env dt cfg own grid us a mid hmid)

theorem BookInv_updateUnits (env : Env) (dt : ℚ) (st : FrenzyState)
    (h : BookInv st) : BookInv (updateUnits env dt st) := by
  unfold updateUnits
  cases hc : updateUnitsChecked env dt st with
  | none => exact h
  | some us2 =>
    unfold updateUnitsChecked at hc
    exact BookInv_units_congr st us2
      (foldlM_map_pid env dt st.config st.owner st.grid _ st.units us2 hc) h

theorem nearestSel_mem (env : Env) (u : FrenzyUnit) (es : List (Nat × FrenzyUnit))
    (j : Nat) (v : FrenzyUnit) (h : nearestSel env u es = some (j, v)) :
    (j, v) ∈ es := by
  cases es with
  | nil => simp [nearestSel] at h
  | cons e r =>
    rw [nearestSel_eq, Option.some.injEq] at h
    have hm := selFold_mem (fun x => env.sqrtq (dSq u x.2)) e r
    rw [h] at hm
    exact hm

theorem combatStep_map_pid (env : Env) (cfg : FrenzyConfig) (dt : ℚ)
    (grid : SpatialHashGrid) (us : List FrenzyUnit) (u : FrenzyUnit) :
    (combatStep env cfg dt grid us u).map (fun w => w.playerId) =
      us.map (fun w => w.playerId) := by
  unfold combatStep
  cases hsel : nearestSel env u (enemiesOf cfg grid us u) with
  | none => rfl
  | some jv =>
    obtain ⟨j, v⟩ := jv
    have hmem := nearestSel_mem env u _ j v hsel
    have hget := (mem_enemiesOf hmem).1
    exact map_pid_set us j v _ hget rfl

theorem combatFold_map_pid (env : Env) (cfg : FrenzyConfig) (dt : ℚ)
    (grid : SpatialHashGrid) :
    ∀ (l : List Nat) (us : List FrenzyUnit),
      ((l.foldl (fun us2 i =>
        match us2.get? i with
        | none => us2
        | some w => combatStep env cfg dt grid us2 w) us).map fun w => w.playerId) =
      us.map (fun w => w.playerId) := by
  intro l
  induction l with
  | nil => intro us; rfl
  | cons a t ih =>
    intro us
    rw [List.foldl_cons, ih]
    cases hget : us.get? a with
    | none => rfl
    | some w => exact combatStep_map_pid env cfg dt grid us w

theorem BookInv_updateCombat (env : Env) (dt : ℚ) (st : FrenzyState)
    (h : BookInv st) : BookInv (updateCombat env dt st) := by
  unfold updateCombat
  exact BookInv_units_congr st _
    (combatFold_map_pid env st.config dt st.grid _ st.units) h

theorem BookInv_captureTerritory (env : Env) (st : FrenzyState)
    (h : BookInv st) : BookInv (captureTerritory env st) :=
  h

theorem BookInv_rebuildSpatialGrid (st : FrenzyState)
    (h : BookInv st) : BookInv (rebuildSpatialGrid st) :=
  h

theorem mapGet_decUnitCount (m : List (PlayerId × CoreBuilding)) (q p : PlayerId) :
    mapGet (decUnitCount m q) p =
      if q = p then (mapGet m p).map (fun b => { b with unitCount := b.unitCount - 1 })
      else mapGet m p := by
  unfold decUnitCount
  cases h : mapGet m q with
  | none =>
    by_cases hqp : q = p
    · subst hqp; simp [h]
    · simp [hqp]
  | some b =>
    rw [mapGet_mapSet]
    by_cases hqp : q = p
    · subst hqp; simp [h]
    · simp [hqp]

theorem mapGet_deadFold (l : List FrenzyUnit) :
    ∀ (m : List (PlayerId × CoreBuilding)) (p : PlayerId),
      mapGet (l.foldl (fun m2 u => decUnitCount m2 u.playerId) m) p =
        (mapGet m p).map
          (fun b => { b with
            unitCount := b.unitCount - ((playerUnits l p).length : Int) }) := by
  induction l with
  | nil =>
    intro m p
    cases h : mapGet m p with
    | none => simp [h]
    | some b => simp [h, playerUnits]
  | cons u t ih =>
    intro m p
    rw [List.foldl_cons, ih, mapGet_decUnitCount]
    by_cases hup : u.playerId = p
    · subst hup
      rw [if_pos rfl]
      cases h : mapGet m u.playerId with
      | none => simp
      | some b =>
        rw [playerUnits_cons_self]
        simp only [Option.map_some', List.length_cons, Option.some.injEq,
          CoreBuilding.mk.injEq, and_true, true_and]
        push_cast
        ring
    · rw [if_neg hup]
      rw [playerUnits_cons_other u t p hup]

theorem length_filter_health (l : List FrenzyUnit) :
    (l.filter fun u => decide (u.health ≤ 0)).length +
      (l.filter fun u => decide (0 < u.health)).length = l.length := by
  induction l with
  | nil => rfl
  | cons u t ih =>
    by_cases h : u.health ≤ 0
    · have h2 : ¬ (0 < u.health) := not_lt.mpr h
      simp [List.filter_cons, h, h2]
      omega
    · have h2 : 0 < u.health := lt_of_not_le h
      simp [List.filter_cons, h, h2]
      omega

theorem playerUnits_filter_comm (P : FrenzyUnit → Bool) (us : List FrenzyUnit)
    (p : PlayerId) :
    playerUnits (us.filter P) p = (playerUnits us p).filter P := by
  unfold playerUnits
  rw [List.filter_filter, List.filter_filter]
  congr 1
  funext u
  exact Bool.and_comm _ _

theorem BookInv_removeDeadUnits (st : FrenzyState) (h : BookInv st) :
    BookInv (removeDeadUnits st) := by
  obtain ⟨h1, h2⟩ := h
  simp only [removeDeadUnits]
  constructor
  · intro u hu
    simp only [] at hu ⊢
    rw [mapGet_deadFold]
    have hu2 : u ∈ st.units := List.mem_of_mem_filter hu
    have hs := h1 u hu2
    cases hg : mapGet st.coreBuildings u.playerId with
    | none => rw [hg] at hs; simp at hs
    | some b => simp [hg]
  · intro p b hb
    simp only [] at hb ⊢
    rw [mapGet_deadFold] at hb
    cases hg : mapGet st.coreBuildings p with
    | none => rw [hg] at hb; simp at hb
    | some c =>
      rw [hg] at hb
      simp only [Option.map_some', Option.some.injEq] at hb
      have hc := h2 p c hg
      rw [← hb]
      simp only []
      rw [playerUnits_filter_comm, playerUnits_filter_comm]
      have hsplit := length_filter_health (playerUnits st.units p)
      omega

theorem BookInv_enforceUnitCaps (st : FrenzyState) (h : BookInv st) :
    BookInv (enforceUnitCaps st) := by
  obtain ⟨h1, h2⟩ := h
  simp only [enforceUnitCaps]
  constructor
  · intro u hu
    simp only [] at hu ⊢
    have hu2 : u ∈ st.units := enforceAux_mem _ _ _ _ u hu
    have hs := h1 u hu2
    cases hg : mapGet st.coreBuildings u.playerId with
    | none => rw [hg] at hs; simp at hs
    | some b =>
      rw [enforceAux_building _ _ _ _ _ b hg]
      rfl
  · intro p b hb
    simp only [] at hb ⊢
    cases hg : mapGet st.coreBuildings p with
    | none =>
      rw [enforceAux_building_none _ _ _ _ _ hg] at hb
      exact absurd hb (by simp)
    | some c =>
      rw [enforceAux_building _ _ _ _ _ c hg] at hb
      have hc := h2 p c hg
      have hbe := (Option.some.inj hb).symm
      rw [enforceAux_filter, hbe]
      unfold trimCount
      split
      next hdz =>
        rw [List.length_take]
        omega
      next hdz =>
        rw [List.length_take]
        dsimp only []
        omega

theorem BookInv_syncState (cfg : FrenzyConfig) (st : FrenzyState) (h : BookInv st) :
    BookInv { st with config := cfg,
                      coreBuildings := syncBuildings cfg st.coreBuildings } := by
  obtain ⟨h1, h2⟩ := h
  constructor
  · intro u hu
    simp only [] at hu ⊢
    rw [mapGet_syncBuildings]
    have hs := h1 u hu
    cases hg : mapGet st.coreBuildings u.playerId with
    | none => rw [hg] at hs; simp at hs
    | some b => simp [hg]
  · intro p b hb
    simp only [] at hb ⊢
    rw [mapGet_syncBuildings] at hb
    cases hg : mapGet st.coreBuildings p with
    | none => rw [hg] at hb; simp at hb
    | some c =>
      rw [hg] at hb
      simp only [Option.map_some', Option.some.injEq] at hb
      rw [← hb]
      exact h2 p c hg

theorem BookInv_updateConfig (patch : FrenzyConfigPatch) (st : FrenzyState)
    (h : BookInv st) : BookInv (updateConfig patch st) := by
  simp only [updateConfig]
  split
  · exact BookInv_enforceUnitCaps _ (BookInv_syncState _ st h)
  · exact BookInv_syncState _ st h

theorem BookInv_hqFold (env : Env) (l : List PlayerId) :
    ∀ st : FrenzyState, BookInv st →
      BookInv (l.foldl (fun s p =>
        if 0 < (tilesOf env s.owner p).length ∧ mapHas s.coreBuildings p = false
        then onPlayerSpawn env p s else s) st) := by
  induction l with
  | nil => intro st h; exact h
  | cons a t ih =>
    intro st h
    rw [List.foldl_cons]
    apply ih
    split
    · exact BookInv_onPlayerSpawn env a st h
    · exact h

theorem BookInv_hqSpawnPhase (env : Env) (st : FrenzyState) (h : BookInv st) :
    BookInv (hqSpawnPhase env st) :=
  BookInv_hqFold env env.players st h

theorem BookInv_tick (env : Env) (dt : ℚ) (st : FrenzyState) (h : BookInv st) :
    BookInv (tick env dt st) := by
  unfold tick
  split
  · exact h
  · exact BookInv_rebuildSpatialGrid _
      (BookInv_removeDeadUnits _
        (BookInv_captureTerritory env _
          (BookInv_updateCombat env dt _
            (BookInv_updateUnits env dt _
              (BookInv_updateSpawnTimers env dt _
                (BookInv_hqSpawnPhase env st h))))))

theorem BookInv_initialState (cfg : FrenzyConfig) (own : Nat → PlayerId) :
    BookInv (initialState cfg own) := by
  constructor
  · intro u hu
    simp [initialState] at hu
  · intro p b hb
    simp [initialState, mapGet] at hb

/-- States reachable through the manager's public operations: the freshly
constructed manager, ticks, player-spawn hooks, and configuration updates. -/
inductive Reach : FrenzyState → Prop where
  | start (cfg : FrenzyConfig) (own : Nat → PlayerId) : Reach (initialState cfg own)
  | stepSpawn (env : Env) (p : PlayerId) (st : FrenzyState) :
      Reach st → Reach (onPlayerSpawn env p st)
  | stepTick (env : Env) (dt : ℚ) (st : FrenzyState) :
      Reach st → Reach (tick env dt st)
  | stepConfig (patch : FrenzyConfigPatch) (st : FrenzyState) :
      Reach st → Reach (updateConfig patch st)

theorem BookInv_of_Reach (st : FrenzyState) (h : Reach st) : BookInv st := by
  induction h with
  | start cfg own => exact BookInv_initialState cfg own
  | stepSpawn env p st _ ih => exact BookInv_onPlayerSpawn env p st ih
  | stepTick env dt st _ ih => exact BookInv_tick env dt st ih
  | stepConfig patch st _ ih => exact BookInv_updateConfig patch st ih

/-- C10: in every reachable state (in particular after every tick and after
every configuration update), each existing core structure's recorded
`unitCount` equals the owner's live unit count as reported by `getUnitCount`,
and is never negative. -/
theorem C10_unit_count_accurate (st : FrenzyState) (h : Reach st) (p : PlayerId)
    (b : CoreBuilding) (hb : mapGet st.coreBuildings p = some b) :
    b.unitCount = (getUnitCount st p : Int) ∧ 0 ≤ b.unitCount := by
  have hB := BookInv_of_Reach st h
  have h2 := hB.2 p b hb
  constructor
  · rw [h2]; rfl
  · rw [h2]; exact Int.natCast_nonneg _

/-- The core structure created for player 1 by the spawn hook on the
one-tile map, with its five starting units recorded. -/
def bFive : CoreBuilding :=
  { playerId := 1, x := 2, y := 2, spawnTimer := 4, spawnInterval := 4,
    unitCount := 5 }

theorem C10_unit_count_accurate_witness :
    mapGet (onPlayerSpawn envOneTile 1 (initialState cfgA ownOneTile)).coreBuildings
        1 = some bFive ∧
    bFive.unitCount =
      (getUnitCount (onPlayerSpawn envOneTile 1 (initialState cfgA ownOneTile)) 1 : Int) ∧
    0 ≤ bFive.unitCount := by
  have hb : mapGet (onPlayerSpawn envOneTile 1
      (initialState cfgA ownOneTile)).coreBuildings 1 = some bFive := by
    simp [onPlayerSpawn, spawnUnit, initialState, mapHas, mapGet, mapSet, tilesOf,
      envOneTile, cfgA, ownOneTile, bFive, List.range_succ]
  exact ⟨hb, C10_unit_count_accurate _
    (Reach.stepSpawn envOneTile 1 _ (Reach.start cfgA ownOneTile)) 1 bFive hb⟩

/-! ## Claim C3: the per-player unit cap as a reachability invariant -/

/-- A configuration whose initial spawn burst fits under its own cap. -/
def goodCfg (cfg : FrenzyConfig) : Prop :=
  cfg.startingUnits ≤ cfg.maxUnitsPerPlayer

/-- Every player's live unit count is within the configured cap. -/
def capBound (st : FrenzyState) : Prop :=
  ∀ p, getUnitCount st p ≤ st.config.maxUnitsPerPlayer

theorem getUnitCount_eq (st : FrenzyState) (p : PlayerId) :
    getUnitCount st p = (playerUnits st.units p).length := rfl

theorem getUnitCount_set_buildings (st : FrenzyState)
    (bs : List (PlayerId × CoreBuilding)) (p : PlayerId) :
    getUnitCount { st with coreBuildings := bs } p = getUnitCount st p := rfl

theorem config_spawnUnit (env : Env) (p : PlayerId) (x y : ℚ) (st : FrenzyState) :
    (spawnUnit env p x y st).config = st.config := by
  simp only [spawnUnit]
  split <;> rfl

theorem config_spawnFold (env : Env) (p : PlayerId) (x y : ℚ) (l : List Nat) :
    ∀ st : FrenzyState,
      (l.foldl (fun s _ => spawnUnit env p x y s) st).config = st.config := by
  induction l with
  | nil => intro st; rfl
  | cons a t ih => intro st; rw [List.foldl_cons, ih, config_spawnUnit]

theorem config_onPlayerSpawn (env : Env) (p : PlayerId) (st : FrenzyState) :
    (onPlayerSpawn env p st).config = st.config := by
  simp only [onPlayerSpawn]
  split
  · rfl
  · split
    · rfl
    · rw [config_spawnFold]

theorem config_spawnTimerStep (env : Env) (dt : ℚ) (st : FrenzyState)
    (pid : PlayerId) : (spawnTimerStep env dt st pid).config = st.config := by
  simp only [spawnTimerStep]
  split
  next => rfl
  next b hg =>
    split
    next =>
      split
      next => exact config_spawnUnit env pid b.x b.y _
      next => exact config_spawnUnit env pid b.x b.y _
    next => rfl

theorem config_timersFold (env : Env) (dt : ℚ) (l : List PlayerId) :
    ∀ st : FrenzyState, (l.foldl (spawnTimerStep env dt) st).config = st.config := by
  induction l with
  | nil => intro st; rfl
  | cons a t ih => intro st; rw [List.foldl_cons, ih, config_spawnTimerStep]

theorem config_updateSpawnTimers (env : Env) (dt : ℚ) (st : FrenzyState) :
    (updateSpawnTimers env dt st).config = st.config :=
  config_timersFold env dt _ st

theorem config_updateUnits (env : Env) (dt : ℚ) (st : FrenzyState) :
    (updateUnits env dt st).config = st.config := by
  unfold updateUnits
  split <;> rfl

theorem config_updateCombat (env : Env) (dt : ℚ) (st : FrenzyState) :
    (updateCombat env dt st).config = st.config := rfl

theorem config_captureTerritory (env : Env) (st : FrenzyState) :
    (captureTerritory env st).config = st.config := rfl

theorem config_removeDeadUnits (st : FrenzyState) :
    (removeDeadUnits st).config = st.config := rfl

theorem config_enforceUnitCaps (st : FrenzyState) :
    (enforceUnitCaps st).config = st.config := rfl

theorem config_rebuildSpatialGrid (st : FrenzyState) :
    (rebuildSpatialGrid st).config = st.config := rfl

theorem config_hqFold (env : Env) (l : List PlayerId) :
    ∀ st : FrenzyState,
      ((l.foldl (fun s p =>
        if 0 < (tilesOf env s.owner p).length ∧ mapHas s.coreBuildings p = false
        then onPlayerSpawn env p s else s) st).config = st.config) := by
  induction l with
  | nil => intro st; rfl
  | cons a t ih =>
    intro st
    rw [List.foldl_cons, ih]
    split
    · exact config_onPlayerSpawn env a st
    · rfl

theorem config_hqSpawnPhase (env : Env) (st : FrenzyState) :
    (hqSpawnPhase env st).config = st.config :=
  config_hqFold env env.players st

theorem config_tick (env : Env) (dt : ℚ) (st : FrenzyState) :
    (tick env dt st).config = st.config := by
  unfold tick
  split
  · rfl
  · rw [config_rebuildSpatialGrid, config_removeDeadUnits, config_captureTerritory,
      config_updateCombat, config_updateUnits, config_updateSpawnTimers,
      config_hqSpawnPhase]

theorem config_updateConfig (patch : FrenzyConfigPatch) (st : FrenzyState) :
    (updateConfig patch st).config = mergeConfig st.config patch := by
  simp only [updateConfig]
  split <;> rfl

theorem getUnitCount_spawnUnit_self (env : Env) (p : PlayerId) (x y : ℚ)
    (st : FrenzyState) :
    getUnitCount (spawnUnit env p x y st) p ≤ getUnitCount st p + 1 := by
  cases hg : mapGet st.coreBuildings p with
  | none => rw [spawnUnit_none env p x y st hg]; omega
  | some b =>
    rw [getUnitCount_eq, (spawnUnit_some env p x y st b hg).1, playerUnits_append,
      List.length_append, ← getUnitCount_eq]
    have h1 : (playerUnits [spawnedUnitAt env st p x y] p).length ≤ 1 := by
      rw [playerUnits]
      simp only [List.filter]
      split <;> simp
    omega

theorem getUnitCount_spawnUnit_other (env : Env) (p : PlayerId) (x y : ℚ)
    (st : FrenzyState) (q : PlayerId) (hq : q ≠ p) :
    getUnitCount (spawnUnit env p x y st) q ≤ getUnitCount st q := by
  cases hg : mapGet st.coreBuildings p with
  | none => rw [spawnUnit_none env p x y st hg]
  | some b =>
    rw [getUnitCount_eq, (spawnUnit_some env p x y st b hg).1, playerUnits_append,
      List.length_append, ← getUnitCount_eq]
    have hne : (spawnedUnitAt env st p x y).playerId = p := rfl
    have hq2 : p ≠ q := fun h => hq h.symm
    have h1 : playerUnits [spawnedUnitAt env st p x y] q = [] := by
      simp [playerUnits, List.filter_cons, hne, hq2]
    rw [h1]
    simp

theorem spawnFold_count_self (env : Env) (p : PlayerId) (x y : ℚ) (l : List Nat) :
    ∀ st : FrenzyState,
      getUnitCount (l.foldl (fun s _ => spawnUnit env p x y s) st) p ≤
        getUnitCount st p + l.length := by
  induction l with
  | nil => intro st; simp
  | cons a t ih =>
    intro st
    rw [List.foldl_cons]
    have h1 := ih (spawnUnit env p x y st)
    have h2 := getUnitCount_spawnUnit_self env p x y st
    simp only [List.length_cons]
    omega

theorem spawnFold_count_other (env : Env) (p : PlayerId) (x y : ℚ) (q : PlayerId)
    (hq : q ≠ p) (l : List Nat) :
    ∀ st : FrenzyState,
      getUnitCount (l.foldl (fun s _ => spawnUnit env p x y s) st) q ≤
        getUnitCount st q := by
  induction l with
  | nil => intro st; exact le_refl _
  | cons a t ih =>
    intro st
    rw [List.foldl_cons]
    exact le_trans (ih (spawnUnit env p x y st))
      (getUnitCount_spawnUnit_other env p x y st q hq)

theorem getUnitCount_onPlayerSpawn_other (env : Env) (p : PlayerId)
    (st : FrenzyState) (q : PlayerId) (hq : q ≠ p) :
    getUnitCount (onPlayerSpawn env p st) q ≤ getUnitCount st q := by
  simp only [onPlayerSpawn]
  split
  next => exact le_refl _
  next =>
    split
    next => exact le_refl _
    next t0 rest ht =>
      exact spawnFold_count_other env p _ _ q hq _ _

theorem getUnitCount_onPlayerSpawn_self (env : Env) (p : PlayerId)
    (st : FrenzyState)
    (hB1 : ∀ u ∈ st.units, (mapGet st.coreBuildings u.playerId).isSome = true) :
    getUnitCount (onPlayerSpawn env p st) p ≤
      max (getUnitCount st p) st.config.startingUnits := by
  simp only [onPlayerSpawn]
  split
  next => exact le_max_left _ _
  next hh =>
    split
    next => exact le_max_left _ _
    next t0 rest ht =>
      have hnone := mapHas_false_get_none st.coreBuildings p hh
      have hz : playerUnits st.units p = [] := no_units_of_no_building st p hB1 hnone
      have hc0 : getUnitCount st p = 0 := by rw [getUnitCount_eq, hz]; rfl
      refine le_trans (spawnFold_count_self env p _ _ _ _) ?_
      rw [getUnitCount_set_buildings, List.length_range, hc0]
      omega

theorem capBound_onPlayerSpawn (env : Env) (p : PlayerId) (st : FrenzyState)
    (hB : BookInv st) (hg : goodCfg st.config) (hc : capBound st) :
    capBound (onPlayerSpawn env p st) := by
  intro q
  rw [config_onPlayerSpawn]
  by_cases hq : q = p
  · subst hq
    exact le_trans (getUnitCount_onPlayerSpawn_self env q st hB.1)
      (max_le (hc q) hg)
  · exact le_trans (getUnitCount_onPlayerSpawn_other env p st q hq) (hc q)

theorem capBound_hqFold (env : Env) (l : List PlayerId) :
    ∀ st : FrenzyState, BookInv st → goodCfg st.config → capBound st →
      capBound (l.foldl (fun s p =>
        if 0 < (tilesOf env s.owner p).length ∧ mapHas s.coreBuildings p = false
        then onPlayerSpawn env p s else s) st) := by
  induction l with
  | nil => intro st _ _ hc; exact hc
  | cons a t ih =>
    intro st hB hg hc
    rw [List.foldl_cons]
    split
    · refine ih _ (BookInv_onPlayerSpawn env a st hB) ?_
        (capBound_onPlayerSpawn env a st hB hg hc)
      rw [config_onPlayerSpawn]
      exact hg
    · exact ih _ hB hg hc

theorem capBound_hqSpawnPhase (env : Env) (st : FrenzyState) (hB : BookInv st)
    (hg : goodCfg st.config) (hc : capBound st) :
    capBound (hqSpawnPhase env st) :=
  capBound_hqFold env env.players st hB hg hc

theorem capBound_spawnTimerStep (env : Env) (dt : ℚ) (st : FrenzyState)
    (pid : PlayerId) (hB : BookInv st) (hc : capBound st) :
    capBound (spawnTimerStep env dt st pid) := by
  intro q
  rw [config_spawnTimerStep]
  simp only [spawnTimerStep]
  split
  next => exact hc q
  next b hg =>
    split
    next hcond =>
      have hlt : b.unitCount < (st.config.maxUnitsPerPlayer : Int) := hcond.2
      have hcnt := hB.2 pid b hg
      have hmain : ∀ r : PlayerId, getUnitCount (spawnUnit env pid b.x b.y { st with coreBuildings := mapSet st.coreBuildings pid { b with spawnTimer := b.spawnTimer - dt } }) r ≤ st.config.maxUnitsPerPlayer := by
        intro r
        by_cases hr : r = pid
        · subst hr
          refine le_trans (getUnitCount_spawnUnit_self env r b.x b.y _) ?_
          rw [getUnitCount_set_buildings]
          have he : getUnitCount st r = (playerUnits st.units r).length :=
            getUnitCount_eq st r
          omega
        · refine le_trans (getUnitCount_spawnUnit_other env pid b.x b.y _ r hr) ?_
          rw [getUnitCount_set_buildings]
          exact hc r
      split
      next => exact hmain q
      next b2 hg2 =>
        rw [getUnitCount_set_buildings]
        exact hmain q
    next => exact hc q

theorem capBound_timersFold (env : Env) (dt : ℚ) (l : List PlayerId) :
    ∀ st : FrenzyState, BookInv st → capBound st →
      capBound (l.foldl (spawnTimerStep env dt) st) := by
  induction l with
  | nil => intro st _ hc; exact hc
  | cons a t ih =>
    intro st hB hc
    rw [List.foldl_cons]
    exact ih _ (BookInv_spawnTimerStep env dt st a hB)
      (capBound_spawnTimerStep env dt st a hB hc)

theorem capBound_updateSpawnTimers (env : Env) (dt : ℚ) (st : FrenzyState)
    (hB : BookInv st) (hc : capBound st) : capBound (updateSpawnTimers env dt st) :=
  capBound_timersFold env dt _ st hB hc

theorem capBound_updateUnits (env : Env) (dt : ℚ) (st : FrenzyState)
    (hc : capBound st) : capBound (updateUnits env dt st) := by
  intro q
  rw [config_updateUnits]
  unfold updateUnits
  split
  next us hsome =>
    unfold updateUnitsChecked at hsome
    have hpid := foldlM_map_pid env dt st.config st.owner st.grid _ st.units us hsome
    have hlen := playerUnits_length_congr us st.units hpid q
    exact le_of_eq_of_le hlen (hc q)
  next => exact hc q

theorem capBound_updateCombat (env : Env) (dt : ℚ) (st : FrenzyState)
    (hc : capBound st) : capBound (updateCombat env dt st) := by
  intro q
  rw [config_updateCombat]
  have hpid := combatFold_map_pid env st.config dt st.grid
    (List.range st.units.length) st.units
  have hlen := playerUnits_length_congr _ st.units hpid q
  exact le_of_eq_of_le hlen (hc q)

theorem capBound_captureTerritory (env : Env) (st : FrenzyState)
    (hc : capBound st) : capBound (captureTerritory env st) :=
  hc

theorem capBound_rebuildSpatialGrid (st : FrenzyState) (hc : capBound st) :
    capBound (rebuildSpatialGrid st) :=
  hc

theorem capBound_removeDeadUnits (st : FrenzyState) (hc : capBound st) :
    capBound (removeDeadUnits st) := by
  intro q
  rw [config_removeDeadUnits]
  have h1 : getUnitCount (removeDeadUnits st) q =
      ((playerUnits st.units q).filter fun u => decide (0 < u.health)).length := by
    rw [getUnitCount_eq,
      show (removeDeadUnits st).units =
        st.units.filter (fun u => decide (0 < u.health)) from rfl,
      playerUnits_filter_comm]
  rw [h1]
  exact le_trans (List.length_filter_le _ _) (hc q)

theorem capBound_enforceUnitCaps (st : FrenzyState) :
    capBound (enforceUnitCaps st) := by
  intro q
  rw [config_enforceUnitCaps]
  have h1 : getUnitCount (enforceUnitCaps st) q =
      (playerUnits (enforceAux st.config.maxUnitsPerPlayer (fun _ => 0)
        st.units st.coreBuildings).1 q).length := rfl
  rw [h1, enforceAux_filter, List.length_take]
  exact le_trans (Nat.min_le_left _ _) (Nat.sub_le _ _)

theorem capBound_updateConfig (patch : FrenzyConfigPatch) (st : FrenzyState)
    (hc : capBound st) : capBound (updateConfig patch st) := by
  simp only [updateConfig]
  split
  next => exact capBound_enforceUnitCaps _
  next hn =>
    intro q
    have hmn : patch.maxUnitsPerPlayer = none :=
      Option.not_isSome_iff_eq_none.mp (by simpa using hn)
    have hmax : (mergeConfig st.config patch).maxUnitsPerPlayer =
        st.config.maxUnitsPerPlayer := by
      simp [mergeConfig, hmn]
    show getUnitCount st q ≤ (mergeConfig st.config patch).maxUnitsPerPlayer
    rw [hmax]
    exact hc q

theorem capBound_tick (env : Env) (dt : ℚ) (st : FrenzyState) (hB : BookInv st)
    (hg : goodCfg st.config) (hc : capBound st) : capBound (tick env dt st) := by
  unfold tick
  split
  next => exact hc
  next =>
    have hB1 := BookInv_hqSpawnPhase env st hB
    have hc1 := capBound_hqSpawnPhase env st hB hg hc
    exact capBound_rebuildSpatialGrid _
      (capBound_removeDeadUnits _
        (capBound_captureTerritory env _
          (capBound_updateCombat env dt _
            (capBound_updateUnits env dt _
              (capBound_updateSpawnTimers env dt _ hB1 hc1)))))

/-- Reachable states restricted to well-formed configurations: every
configuration ever in effect (initial or merged by an update) has its
starting spawn burst within its own cap. -/
inductive ReachG : FrenzyState → Prop where
  | start (cfg : FrenzyConfig) (own : Nat → PlayerId) (hg : goodCfg cfg) :
      ReachG (initialState cfg own)
  | stepSpawn (env : Env) (p : PlayerId) (st : FrenzyState) :
      ReachG st → ReachG (onPlayerSpawn env p st)
  | stepTick (env : Env) (dt : ℚ) (st : FrenzyState) :
      ReachG st → ReachG (tick env dt st)
  | stepConfig (patch : FrenzyConfigPatch) (st : FrenzyState)
      (hg : goodCfg (mergeConfig st.config patch)) :
      ReachG st → ReachG (updateConfig patch st)

theorem GInv_of_ReachG (st : FrenzyState) (h : ReachG st) :
    BookInv st ∧ goodCfg st.config ∧ capBound st := by
  induction h with
  | start cfg own hg =>
    exact ⟨BookInv_initialState cfg own, hg, fun p => Nat.zero_le _⟩
  | stepSpawn env p st _ ih =>
    obtain ⟨hB, hg, hc⟩ := ih
    refine ⟨BookInv_onPlayerSpawn env p st hB, ?_,
      capBound_onPlayerSpawn env p st hB hg hc⟩
    rw [config_onPlayerSpawn]
    exact hg
  | stepTick env dt st _ ih =>
    obtain ⟨hB, hg, hc⟩ := ih
    refine ⟨BookInv_tick env dt st hB, ?_, capBound_tick env dt st hB hg hc⟩
    rw [config_tick]
    exact hg
  | stepConfig patch st hgm _ ih =>
    obtain ⟨hB, hg, hc⟩ := ih
    refine ⟨BookInv_updateConfig patch st hB, ?_,
      capBound_updateConfig patch st hc⟩
    rw [config_updateConfig]
    exact hgm

/-- C3 (amended): in every reachable state — after any tick, including the
one that first creates a player's core structure and spawns its starting
units, and after any configuration update, including one that lowers
`maxUnitsPerPlayer` — each player's live unit count is at most the configured
cap, PROVIDED every configuration in effect satisfies
`startingUnits ≤ maxUnitsPerPlayer`. Without that proviso the claim is false:
`C3_cap_exceeded_without_assumption` reaches a state whose count exceeds the
cap, because `onPlayerSpawn` spawns the starting burst with no cap check. -/
theorem C3_unit_cap_invariant (st : FrenzyState) (h : ReachG st) (p : PlayerId) :
    getUnitCount st p ≤ st.config.maxUnitsPerPlayer :=
  (GInv_of_ReachG st h).2.2 p

theorem C3_unit_cap_invariant_witness :
    getUnitCount (tick envOneTile 1 (initialState cfgA ownOneTile)) 1 ≤
      (tick envOneTile 1 (initialState cfgA ownOneTile)).config.maxUnitsPerPlayer :=
  C3_unit_cap_invariant _
    (ReachG.stepTick envOneTile 1 _ (ReachG.start cfgA ownOneTile (by unfold goodCfg; decide))) 1

/-- The (spec-violating) configuration: two starting units but a cap of one. -/
def cfgBad : FrenzyConfig :=
  { spawnInterval := 4, maxUnitsPerPlayer := 1, startingUnits := 2,
    unitHealth := 100, unitSpeed := 0, unitDPS := 15, combatRange := 25,
    separationRadius := 5, captureRadius := 1, radialAlignmentWeight := 3/4,
    borderAdvanceDistance := 1/2, stopDistance := 1 }

/-- One-tile, one-player environment for the C3 counterexample. -/
def envBad : Env :=
  { width := 10, height := 10, isValidCoord := fun _ _ => false,
    ref := fun _ _ => 0, tileX := fun _ => 2, tileY := fun _ => 2,
    isWater := fun _ => false, neighbors := fun _ => [], allTiles := [0],
    players := [1], inSpawnPhase := false, rand := fun _ => 1/2,
    sqrtq := fun _ => 0 }

/-- C3 counterexample: with `startingUnits = 2 > 1 = maxUnitsPerPlayer`, the
first tick creates the core structure and spawns both starting units, and no
later stage of the tick re-enforces the cap — the reachable state holds two
live units against a cap of one. -/
theorem C3_cap_exceeded_without_assumption :
    Reach (tick envBad 1 (initialState cfgBad ownOneTile)) ∧
    (tick envBad 1 (initialState cfgBad ownOneTile)).config.maxUnitsPerPlayer = 1 ∧
    getUnitCount (tick envBad 1 (initialState cfgBad ownOneTile)) 1 = 2 := by
  refine ⟨Reach.stepTick envBad 1 _ (Reach.start cfgBad ownOneTile), ?_, ?_⟩
  · rw [config_tick]
    rfl
  · have hms : ¬ (max (0:ℚ) 1 < 0) := by norm_num
    have hlt : ¬ ((1:ℚ) < 0) := by norm_num
    have hnil : ∀ (e : Env) (u2 : FrenzyUnit), nearestSel e u2 [] = none :=
      fun _ _ => rfl
    have hfl : (⌊(1:ℚ)⌋ : Int) = 1 := by norm_num
    have hd1 : decide ((100:ℚ) ≤ 0) = false := by norm_num
    have hd2 : decide ((0:ℚ) < 100) = true := by norm_num
    simp [tick, hqSpawnPhase, onPlayerSpawn, spawnUnit, tilesOf, mapHas, mapGet,
      mapSet, updateSpawnTimers, spawnTimerStep, updateUnits, updateUnitsChecked,
      moveUnitStep, targetPosFor, updateCombat, combatStep, enemiesOf, resolveIdx,
      SpatialHashGrid.getNearby, captureTerritory, captureUnit, processCandidate,
      intRangeSym, removeDeadUnits, decUnitCount, rebuildSpatialGrid,
      SpatialHashGrid.insert, SpatialHashGrid.clear, initialState, getUnitCount,
      envBad, cfgBad, ownOneTile, List.range_succ, hms, hlt, hnil, hfl, hd1, hd2]
